import Mathlib

/-!
Verification of the markdown reformatter core (`markdownReformatter`):
region matching, region toggling, tab expansion and ordered-list
renumbering.  The implementation file is not part of the sources here
(only its test suite is), so every operation below is modelled from the
specification and validated against the test suite's expectations.

Text is modelled as `List Char`; a document is a flat character list in
which lines are separated by the newline character.  Machine strings and
regular expressions of the implementation are modelled by explicit
character lists and by the small family of matcher shapes that the
specification and the tests actually use.
-/

/-- Modelled from the spec: a line of a document, without its trailing
newline character. -/
abbrev Line := List Char

/-- Decidable test for the whitespace characters that may appear inside
indentation (the `\s` of the line-anchored matchers, restricted to the
characters that occur inside a single line). -/
def isSpaceOrTab (c : Char) : Bool :=
  decide (c = ' ' ∨ c = '\t')

/-- Decidable test for "not a newline". -/
def notNL (c : Char) : Bool :=
  decide (c ≠ '\n')

/-- Modelled from the spec: the running-column tab expansion underlying
`tabsToSpaces` (§4.4).  `col` is the visual column reached so far,
counted from the start of the input text; a tab expands to enough
spaces to reach the next multiple of the indentation-unit width `w`,
and any other character advances the column by one. -/
def tabsToSpacesAux (w : Nat) : Nat → List Char → List Char
  | _, [] => []
  | col, c :: rest =>
    if c = '\t' then
      List.replicate (w - col % w) ' ' ++ tabsToSpacesAux w (col + (w - col % w)) rest
    else
      c :: tabsToSpacesAux w (col + 1) rest

/-- Modelled from the spec: `tabsToSpaces(editorState, text)` (§4.4).
The editor state only contributes the configured indentation-unit
width, which is passed here explicitly as `w`; the running column
starts at zero, i.e. at the start of the input text, not at an
absolute document column. -/
def tabsToSpaces (w : Nat) (text : List Char) : List Char :=
  tabsToSpacesAux w 0 text

/-- Visual width of an indentation string under indentation-unit width
`w`, measured by expanding its tabs. -/
def indentWidth (w : Nat) (ind : List Char) : Nat :=
  (tabsToSpaces w ind).length

/-- Start offset of the line containing position `p`: `p` minus the
length of the run of non-newline characters that immediately precedes
`p`. -/
def lineStartAt (doc : List Char) (p : Nat) : Nat :=
  p - ((doc.take p).reverse.takeWhile notNL).length

/-- End offset (exclusive, at the newline or at end of document) of the
line containing position `p`. -/
def lineEndAt (doc : List Char) (p : Nat) : Nat :=
  p + ((doc.drop p).takeWhile notNL).length

/-- The full text of the line containing position `p`. -/
def lineAt (doc : List Char) (p : Nat) : Line :=
  (doc.drop (lineStartAt doc p)).takeWhile notNL

/-- Modelled from the spec: one selection range, `(from, to)` offsets
into the document with `fromPos ≤ toPos` after normalization; a range
with `fromPos = toPos` is a cursor. -/
structure SelRange where
  fromPos : Nat
  toPos : Nat
deriving DecidableEq

/-- Modelled from the spec: `MatchSide`, which edge of a selection to
probe. -/
inductive MatchSide where
  | Start
  | End
deriving DecidableEq

/-- Modelled from the spec: the shapes of delimiter matchers used by the
region specs of this module.  `literal` recognizes a fixed delimiter
string; `lineAnchored` is a pattern anchored at the start of the line
(such as the list-item pattern, whitespace included), given by the
number of characters it consumes from the line; `endAnchor` is the
end-of-line anchor, a zero-width match; `wholeLine` recognizes a
complete line (such as a code-fence line). -/
inductive MatcherKind where
  | literal (delim : List Char)
  | lineAnchored (consume : Line → Option Nat)
  | endAnchor
  | wholeLine (accepts : Line → Bool)

/-- Modelled from the spec: `RegionSpec` — templates used when inserting
a region and matchers used when detecting one (§3). -/
structure RegionSpec where
  startTemplate : List Char
  endTemplate : List Char
  startMatcher : MatcherKind
  endMatcher : MatcherKind

/-- Modelled from the spec: `RegionSpec.of` for a symmetric template —
both templates are the given string and both matchers recognize that
literal string (§4.1). -/
def RegionSpec.of (t : List Char) : RegionSpec :=
  ⟨t, t, .literal t, .literal t⟩

/-- The literal delimiter `d` occurs in `doc` at offset `p`. -/
abbrev sliceLit (doc : List Char) (p : Nat) (d : List Char) : Prop :=
  (doc.drop p).take d.length = d

/-- Modelled from the spec: the span `(start, stop)` of the delimiter
recognized adjacent to the requested side of the selection, or `none`.
For a cursor, the start delimiter is sought immediately before the
cursor and the end delimiter immediately after it; for a non-empty
range, the delimiter is sought just outside the range edge first and
just inside it second.  A line-anchored matcher is evaluated against
the full line containing the boundary and its match (indentation
included) must be contained in the selection; the end-of-line anchor
always matches, with width zero, at the end of the boundary line. -/
def findInlineSpan (doc : List Char) (spec : RegionSpec) (sel : SelRange)
    (side : MatchSide) : Option (Nat × Nat) :=
  let m := match side with
    | .Start => spec.startMatcher
    | .End => spec.endMatcher
  match m with
  | .literal d =>
    match side with
    | .Start =>
      if d.length ≤ sel.fromPos ∧ sliceLit doc (sel.fromPos - d.length) d then
        some (sel.fromPos - d.length, sel.fromPos)
      else if sel.fromPos ≠ sel.toPos ∧ sliceLit doc sel.fromPos d then
        some (sel.fromPos, sel.fromPos + d.length)
      else none
    | .End =>
      if sliceLit doc sel.toPos d then
        some (sel.toPos, sel.toPos + d.length)
      else if sel.fromPos ≠ sel.toPos ∧ d.length ≤ sel.toPos ∧
          sliceLit doc (sel.toPos - d.length) d then
        some (sel.toPos - d.length, sel.toPos)
      else none
  | .lineAnchored consume =>
    let bnd := match side with
      | .Start => sel.fromPos
      | .End => sel.toPos
    match consume (lineAt doc bnd) with
    | none => none
    | some n =>
      if sel.fromPos ≤ lineStartAt doc bnd ∧ lineStartAt doc bnd + n ≤ sel.toPos then
        some (lineStartAt doc bnd, lineStartAt doc bnd + n)
      else none
  | .endAnchor => some (lineEndAt doc sel.toPos, lineEndAt doc sel.toPos)
  | .wholeLine accepts =>
    let bnd := match side with
      | .Start => sel.fromPos
      | .End => sel.toPos
    if accepts (lineAt doc bnd) ∧ sel.fromPos ≤ lineStartAt doc bnd ∧
        lineEndAt doc bnd ≤ sel.toPos then
      some (lineStartAt doc bnd, lineEndAt doc bnd)
    else none

/-- Modelled from the spec: `findInlineMatch(document, spec, selection,
side)` — the length in characters of the matched delimiter, or the `-1`
no-match sentinel (§4.2). -/
def findInlineMatch (doc : List Char) (spec : RegionSpec) (sel : SelRange)
    (side : MatchSide) : Int :=
  match findInlineSpan doc spec sel side with
  | none => -1
  | some (a, b) => ((b - a : Nat) : Int)

/-- Modelled from the spec: the consume function of the list-item
matcher pattern (optional whitespace, a dash or asterisk bullet, one
whitespace character), anchored at line start. -/
def listMarkerConsume (l : Line) : Option Nat :=
  let ws := l.takeWhile isSpaceOrTab
  match l.drop ws.length with
  | c :: c2 :: _ =>
    if (c = '-' ∨ c = '*') ∧ isSpaceOrTab c2 then some (ws.length + 2) else none
  | _ => none

/-- The list-region spec used by the test suite: template a dash item,
start matcher the list-item pattern, end matcher the end-of-line
anchor. -/
def listSpec : RegionSpec :=
  ⟨(" - ").data, [], .lineAnchored listMarkerConsume, .endAnchor⟩

/-- The bold spec of the test suite. -/
def boldSpec : RegionSpec := RegionSpec.of (("**").data)

/-- Modelled from the spec: one replace operation of an edit script —
a range against the original snapshot and its replacement text (§3,
`EditScript`). -/
structure EditOp where
  fromPos : Nat
  toPos : Nat
  insert : List Char
deriving DecidableEq

/-- Modelled from the spec: application of an edit script whose
operations are sorted and non-overlapping, offsets taken against the
original snapshot (§3).  `base` is the absolute offset of the suffix
`s` of the original document still to be processed. -/
def applyEditsFrom : Nat → List Char → List EditOp → List Char
  | _, s, [] => s
  | base, s, op :: rest =>
    s.take (op.fromPos - base) ++ op.insert ++
      applyEditsFrom op.toPos (s.drop (op.toPos - base)) rest

/-- Apply an edit script to a document snapshot. -/
def applyEdits (doc : List Char) (ops : List EditOp) : List Char :=
  applyEditsFrom 0 doc ops

/-- Modelled from the spec: whether a complete line is recognized by a
matcher — the full-line granularity used by the block-boundary
check (§4.3 step 1). -/
def lineMatches (m : MatcherKind) (l : Line) : Bool :=
  match m with
  | .literal d => decide (l = d)
  | .lineAnchored consume => decide (consume l = some l.length)
  | .endAnchor => l.isEmpty
  | .wholeLine accepts => accepts l

/-- Modelled from the spec: the selection is currently wrapped in the
inline form — a delimiter of the inline spec is recognized at both
sides of the selection (§4.3 step 1). -/
def inlineWrapped (doc : List Char) (spec : RegionSpec) (sel : SelRange) : Bool :=
  (findInlineSpan doc spec sel .Start).isSome &&
    (findInlineSpan doc spec sel .End).isSome

/-- Modelled from the spec: the selection is currently wrapped in the
block form — it spans more than one line and the lines bounding it
(its first and last lines, extended to full-line granularity) are
recognized by the block spec's matchers (§4.3 step 1). -/
def blockWrapped (doc : List Char) (blockSpec : RegionSpec) (sel : SelRange) : Bool :=
  decide (lineStartAt doc sel.fromPos ≠ lineStartAt doc sel.toPos) &&
    lineMatches blockSpec.startMatcher (lineAt doc sel.fromPos) &&
    lineMatches blockSpec.endMatcher (lineAt doc sel.toPos)

/-- Modelled from the spec: the per-range decision procedure of the
region toggle engine (§4.3).  If wrapped in block form, remove the two
full fence lines together with their adjoining newlines (collapsing an
empty fence pair to nothing); otherwise, if wrapped in inline form,
remove exactly the two matched delimiter spans; otherwise insert —
inline delimiters around a single-line selection (for a cursor the two
delimiters back to back with the cursor between them), or block fence
lines of their own immediately around a multi-line selection, the new
selection then covering the whole inserted span, fences included. -/
def toggleRange (doc : List Char) (inlineSpec blockSpec : RegionSpec)
    (sel : SelRange) : List EditOp × SelRange :=
  if blockWrapped doc blockSpec sel then
    let fls := lineStartAt doc sel.fromPos
    let fle := lineEndAt doc sel.fromPos
    let lls := lineStartAt doc sel.toPos
    let lle := lineEndAt doc sel.toPos
    if fle + 1 ≤ lls - 1 then
      ([⟨fls, fle + 1, []⟩, ⟨lls - 1, lle, []⟩], ⟨fls, fls + (lls - 1 - (fle + 1))⟩)
    else
      ([⟨fls, lle, []⟩], ⟨fls, fls⟩)
  else
    match findInlineSpan doc inlineSpec sel .Start,
        findInlineSpan doc inlineSpec sel .End with
    | some (s1, e1), some (s2, e2) =>
      ([⟨s1, e1, []⟩, ⟨s2, e2, []⟩], ⟨s1, s2 - (e1 - s1)⟩)
    | _, _ =>
      if lineStartAt doc sel.fromPos = lineStartAt doc sel.toPos then
        ([⟨sel.fromPos, sel.fromPos, inlineSpec.startTemplate⟩,
          ⟨sel.toPos, sel.toPos, inlineSpec.endTemplate⟩],
         ⟨sel.fromPos + inlineSpec.startTemplate.length,
          sel.toPos + inlineSpec.startTemplate.length⟩)
      else
        let fls := lineStartAt doc sel.fromPos
        let lle := lineEndAt doc sel.toPos
        ([⟨fls, fls, blockSpec.startTemplate ++ ['\n']⟩,
          ⟨lle, lle, '\n' :: blockSpec.endTemplate⟩],
         ⟨fls, lle + blockSpec.startTemplate.length + 1 + 1 +
            blockSpec.endTemplate.length⟩)

/-- Modelled from the spec: `toggleRegionFormatGlobally(editorState,
inlineSpec, blockSpec)` — every selection range is processed
independently against the original snapshot and the per-range edits
are merged into one script applied atomically by the host (§4.3); each
range's updated selection is reported in the coordinates produced by
its own range's edits (the host compensates across ranges). -/
def toggleRegionFormatGlobally (doc : List Char) (inlineSpec blockSpec : RegionSpec)
    (sels : List SelRange) : List EditOp × List SelRange :=
  ((sels.map (toggleRange doc inlineSpec blockSpec)).flatMap Prod.fst,
   (sels.map (toggleRange doc inlineSpec blockSpec)).map Prod.snd)

/-- The six-backtick code fence delimiter of the test suite's block
spec. -/
def codeFence : List Char := (("``````").data)

/-- Word characters, as in the info-string part of the fence pattern. -/
def isWordChar (c : Char) : Bool := c.isAlphanum || c = '_'

/-- Modelled from the spec: the code-fence line pattern of the test
suite — the fence, then word characters, then trailing whitespace,
asserted against a whole line. -/
def codeFenceAccepts (l : Line) : Bool :=
  decide (l.take 6 = codeFence) &&
    ((l.drop 6).dropWhile isWordChar).all isSpaceOrTab

/-- The block code-fence spec of the test suite. -/
def blockCodeSpec : RegionSpec :=
  ⟨codeFence, codeFence, .wholeLine codeFenceAccepts, .wholeLine codeFenceAccepts⟩

/-- The inline code spec of the test suite. -/
def inlineCodeSpec : RegionSpec := RegionSpec.of (("`").data)

/-- A RegionSpec whose matcher and template agree in shape (both
symmetric) but whose matcher recognizes a different delimiter text
than the template inserts — permitted by the data model, which only
requires shape agreement (§3). -/
def mismatchedSpec : RegionSpec :=
  ⟨("*").data, ("*").data, .literal (("_").data), .literal (("_").data)⟩

/-- The multi-line text the toggle tests run on. -/
def multiLineTestText : List Char :=
  (("Internal text manipulation\n\t\tThis is a test...\n\t\tof block and inline region toggling.").data)

/-- Modelled from the spec: the transient `ListItem` derived from
scanning a line — indentation text, ordinal digits, and the remainder
of the line starting at the delimiter (§3). -/
structure ListItem where
  indent : List Char
  digits : List Char
  rest : List Char
deriving DecidableEq

/-- Modelled from the spec: scan one line for an ordered-list item —
leading whitespace, a non-empty run of ordinal digits, then the dot
delimiter; the delimiter and item content are kept untouched in
`rest`. -/
def parseListItem (line : Line) : Option ListItem :=
  let ind := line.takeWhile isSpaceOrTab
  let r1 := line.drop ind.length
  let ds := r1.takeWhile Char.isDigit
  let r2 := r1.drop ds.length
  if ds ≠ [] ∧ r2.head? = some '.' then some ⟨ind, ds, r2⟩ else none

/-- Whether a line is an ordered-list line. -/
def isListLine (line : Line) : Bool := (parseListItem line).isSome

/-- Split a document into its lines; the newline separators are
consumed and a document always has at least one (possibly empty)
line. -/
def splitLines : List Char → List Line
  | [] => [[]]
  | c :: rest =>
    if c = '\n' then [] :: splitLines rest
    else
      match splitLines rest with
      | [] => [[c]]
      | l :: ls => (c :: l) :: ls

/-- Join lines back with newline separators. -/
def joinLines : List Line → List Char
  | [] => []
  | [l] => l
  | l :: ls => l ++ '\n' :: joinLines ls

/-- Decimal digits of an ordinal, fuel-based. -/
def natDigitsAux : Nat → Nat → List Char
  | 0, _ => []
  | _ + 1, 0 => []
  | fuel + 1, n + 1 =>
    natDigitsAux fuel ((n + 1) / 10) ++ [Char.ofNat (48 + (n + 1) % 10)]

/-- Decimal rendering of a recomputed ordinal. -/
def natDigits (n : Nat) : List Char :=
  if n = 0 then [Char.ofNat 48] else natDigitsAux n n

/-- Modelled from the spec: one step of the nesting-depth counter stack
(§4.5 step 3).  The stack holds (indentation width, counter) pairs,
deepest on top: a new deeper indentation opens a nested counter at 1,
an equal indentation continues the sibling counter, and returning to a
shallower previously seen width pops the deeper levels and resumes
that width's counter where it left off. -/
def stackStep (width : Nat) (stack : List (Nat × Nat)) : Nat × List (Nat × Nat) :=
  let s2 := stack.dropWhile (fun p => decide (width < p.1))
  match s2 with
  | [] => (1, [(width, 1)])
  | (tw, c) :: tl =>
    if tw = width then (c + 1, (tw, c + 1) :: tl)
    else (1, (width, 1) :: (tw, c) :: tl)

/-- Modelled from the spec: the recomputed ordinal of every line in one
pass over the parsed lines; a non-list line breaks contiguity and
closes every open list, resetting the stack (§4.5 steps 1 and 3). -/
def ordinalsAux (w : Nat) :
    List (Option ListItem) → List (Nat × Nat) → List (Option Nat)
  | [], _ => []
  | none :: rest, _ => none :: ordinalsAux w rest []
  | some it :: rest, stack =>
    some (stackStep (indentWidth w it.indent) stack).1 ::
      ordinalsAux w rest (stackStep (indentWidth w it.indent) stack).2

/-- First line index of the maximal contiguous run of list lines that
contains line `i`; `isL` is the per-line list-line flag vector. -/
def blockStartIdx (isL : List Bool) : Nat → Nat
  | 0 => 0
  | i + 1 => if isL.getD i false then blockStartIdx isL i else i + 1

/-- Line index containing offset `p` — the number of newline characters
before `p`. -/
def lineIndexAt (doc : List Char) (p : Nat) : Nat :=
  ((doc.take p).filter (fun c => decide (c = '\n'))).length

/-- Line indices touched by one selection range. -/
def touchedLineIdxs (doc : List Char) (sel : SelRange) : List Nat :=
  List.range' (lineIndexAt doc sel.fromPos)
    (lineIndexAt doc sel.toPos - lineIndexAt doc sel.fromPos + 1)

/-- Modelled from the spec: the start line index of every list block
intersecting some selection range (§4.5 steps 1 and 2).  Duplicate
entries are irrelevant: the renumbering pass only tests membership,
which is what makes each distinct block processed exactly once. -/
def selectedStarts (doc : List Char) (sels : List SelRange) : List Nat :=
  sels.flatMap (fun r =>
    ((touchedLineIdxs doc r).filter
      (fun idx => isListLine ((splitLines doc).getD idx []))).map
      (blockStartIdx ((splitLines doc).map isListLine)))

/-- The per-line renumbering plan: each line paired with `none` (leave
unchanged) or with its parsed item and recomputed ordinal.  `flags`
marks the lines of the selected list blocks; the counter stack is
threaded along the pass and reset at every non-list line. -/
def planAux (w : Nat) : List Line → List Bool → List (Nat × Nat) →
    List (Line × Option (ListItem × Nat))
  | [], _, _ => []
  | l :: ls, flags, stack =>
    match parseListItem l with
    | none => (l, none) :: planAux w ls flags.tail []
    | some it =>
      (l, if flags.headD false then
            some (it, (stackStep (indentWidth w it.indent) stack).1)
          else none) ::
        planAux w ls flags.tail (stackStep (indentWidth w it.indent) stack).2

/-- Edit operations of a renumbering plan; `off` is the absolute offset
of the current line in the document.  A planned line contributes one
replace operation covering exactly its ordinal digits. -/
def planOps : Nat → List (Line × Option (ListItem × Nat)) → List EditOp
  | _, [] => []
  | off, (l, none) :: rest => planOps (off + l.length + 1) rest
  | off, (l, some (it, n)) :: rest =>
    ⟨off + it.indent.length, off + it.indent.length + it.digits.length, natDigits n⟩ ::
      planOps (off + l.length + 1) rest

/-- The new lines of a renumbering plan. -/
def planLines : List (Line × Option (ListItem × Nat)) → List Line
  | [] => []
  | (l, none) :: rest => l :: planLines rest
  | (_, some (it, n)) :: rest =>
    (it.indent ++ (natDigits n ++ it.rest)) :: planLines rest

/-- The per-line renumber flags of a document and selection: a line is
renumbered iff it is an ordered-list line whose maximal contiguous run
starts at the start line of a selected block. -/
def renumberFlags (doc : List Char) (sels : List SelRange) : List Bool :=
  (List.range (splitLines doc).length).map (fun idx =>
    isListLine ((splitLines doc).getD idx []) &&
      decide (blockStartIdx ((splitLines doc).map isListLine) idx ∈
        selectedStarts doc sels))

/-- Modelled from the spec: `renumberSelectedLists(editorState)` — the
edit script renumbering every ordered-list block intersecting some
selection range (§4.5); `w` is the configured indentation-unit width
used to classify nesting depths. -/
def renumberSelectedLists (w : Nat) (doc : List Char) (sels : List SelRange) :
    List EditOp :=
  planOps 0 (planAux w (splitLines doc) (renumberFlags doc sels) [])

/-- The renumbered document, computed line-wise. -/
def renumberApplied (w : Nat) (doc : List Char) (sels : List SelRange) : List Char :=
  joinLines (planLines (planAux w (splitLines doc) (renumberFlags doc sels) []))

-- Test-suite expectations, reproduced on the model (the test file is
-- the only source material present for this module).
example : findInlineMatch (("**test**").data) boldSpec ⟨0, 5⟩ .Start = 2 := by decide
example : findInlineMatch (("**...** test.").data) boldSpec ⟨5, 5⟩ .End = 2 := by decide
example : findInlineMatch (("**...** test.").data) boldSpec ⟨3, 3⟩ .Start = -1 := by decide
example : findInlineMatch (("- Test...").data) listSpec ⟨1, 6⟩ .Start = -1 := by decide
example : findInlineMatch (("- Test...").data) listSpec ⟨0, 6⟩ .Start = 2 := by decide
example : findInlineMatch (("   - Test...").data) listSpec ⟨0, 6⟩ .Start = 5 := by decide
example : findInlineMatch (("   - Test...").data) listSpec ⟨0, 6⟩ .End = 0 := by decide

-- ### Tab expansion (C6)

theorem tabsToSpacesAux_append (w : Nat) (p : List Char) (hp : ∀ c ∈ p, c ≠ '\t') :
    ∀ (col : Nat) (s : List Char),
      tabsToSpacesAux w col (p ++ s) = p ++ tabsToSpacesAux w (col + p.length) s := by
  induction p with
  | nil => intro col s; simp
  | cons c cs ih =>
    intro col s
    have hc : ¬ (c = '\t') := hp c (by simp)
    simp only [List.cons_append, tabsToSpacesAux, if_neg hc, List.append_eq]
    rw [ih (fun d hd => hp d (by simp [hd])) (col + 1) s]
    have : col + 1 + cs.length = col + (cs.length + 1) := by omega
    simp [this]

/-- C6: `tabsToSpaces` expands each tab relative to the running visual
column counted from the start of the input: non-tab characters pass
through unchanged advancing the column by one (so tab-free text is a
fixpoint), a tab sitting after a tab-free prefix `p` (running column
`p.length`) expands to `w - p.length % w` spaces, and a leading tab
expands to exactly `w` spaces. -/
theorem c6_tabsToSpaces_running_column (w : Nat) (hw : 0 < w) :
    (∀ s : List Char, (∀ c ∈ s, c ≠ '\t') → tabsToSpaces w s = s) ∧
    (∀ p s : List Char, (∀ c ∈ p, c ≠ '\t') →
      tabsToSpaces w (p ++ '\t' :: s) =
        p ++ List.replicate (w - p.length % w) ' ' ++
          tabsToSpacesAux w (p.length + (w - p.length % w)) s) ∧
    (∀ s : List Char, tabsToSpaces w ('\t' :: s) =
      List.replicate w ' ' ++ tabsToSpacesAux w w s) := by
  refine ⟨?_, ?_, ?_⟩
  · intro s hs
    have h := tabsToSpacesAux_append w s hs 0 []
    simpa [tabsToSpaces, tabsToSpacesAux] using h
  · intro p s hp
    rw [tabsToSpaces, tabsToSpacesAux_append w p hp 0 ('\t' :: s)]
    simp [tabsToSpacesAux]
  · intro s
    simp [tabsToSpaces, tabsToSpacesAux]

theorem c6_witness :
    tabsToSpaces 4 ([' ', ' '] ++ '\t' :: [' ', ' ']) = (("      ").data) := by
  have h := (c6_tabsToSpaces_running_column 4 (by decide)).2.1 [' ', ' '] [' ', ' ']
    (by decide)
  rw [h]; decide

-- ### The no-match sentinel versus zero-length matches (C7)

/-- C7: `findInlineMatch` returns `-1` exactly when no delimiter span is
recognized at all; whenever a span is recognized the result is its
(non-negative) length, so a zero-length match — in particular the
end-of-line anchor matcher at `MatchSide.End`, which always matches
with width zero — yields `0`, never `-1`. -/
theorem c7_zero_length_match_vs_absence :
    (∀ (doc : List Char) (spec : RegionSpec) (sel : SelRange) (side : MatchSide),
      findInlineMatch doc spec sel side = -1 ↔
        findInlineSpan doc spec sel side = none) ∧
    (∀ (doc : List Char) (spec : RegionSpec) (sel : SelRange) (side : MatchSide)
      (a b : Nat), findInlineSpan doc spec sel side = some (a, b) →
        findInlineMatch doc spec sel side = ((b - a : Nat) : Int) ∧
        0 ≤ findInlineMatch doc spec sel side) ∧
    (∀ (doc ts te : List Char) (sm : MatcherKind) (sel : SelRange),
      findInlineMatch doc ⟨ts, te, sm, .endAnchor⟩ sel .End = 0) := by
  refine ⟨?_, ?_, ?_⟩
  · intro doc spec sel side
    cases h : findInlineSpan doc spec sel side with
    | none => simp [findInlineMatch, h]
    | some ab =>
      obtain ⟨a, b⟩ := ab
      simp only [findInlineMatch, h]
      constructor
      · intro hemp; omega
      · intro hemp; cases hemp
  · intro doc spec sel side a b h
    refine ⟨by simp [findInlineMatch, h], ?_⟩
    simp only [findInlineMatch, h]
    omega
  · intro doc ts te sm sel
    simp [findInlineMatch, findInlineSpan]

theorem c7_witness :
    findInlineMatch (("   - Test...").data) listSpec ⟨0, 6⟩ .Start = ((5 - 0 : Nat) : Int) ∧
    0 ≤ findInlineMatch (("   - Test...").data) listSpec ⟨0, 6⟩ .Start :=
  c7_zero_length_match_vs_absence.2.1 (("   - Test...").data) listSpec ⟨0, 6⟩ .Start 0 5
    (by decide)

-- ### Containment for line-anchored (block-style) matchers (C8)

/-- C8: for a line-anchored matcher whose pattern consumes `n`
characters of the boundary line (leading indentation included), the
match is reported — with its full consumed length — only when that
span is contained in the selection; if the consumed span falls outside
the selection bounds the result is the `-1` sentinel. -/
theorem c8_lineAnchored_containment (doc ts te : List Char) (em : MatcherKind)
    (consume : Line → Option Nat) (sel : SelRange) (n : Nat)
    (h : consume (lineAt doc sel.fromPos) = some n) :
    (¬ (sel.fromPos ≤ lineStartAt doc sel.fromPos ∧
        lineStartAt doc sel.fromPos + n ≤ sel.toPos) →
      findInlineMatch doc ⟨ts, te, .lineAnchored consume, em⟩ sel .Start = -1) ∧
    ((sel.fromPos ≤ lineStartAt doc sel.fromPos ∧
        lineStartAt doc sel.fromPos + n ≤ sel.toPos) →
      findInlineMatch doc ⟨ts, te, .lineAnchored consume, em⟩ sel .Start = (n : Int)) := by
  constructor
  · intro hout
    simp [findInlineMatch, findInlineSpan, h, hout]
  · intro hin
    simp [findInlineMatch, findInlineSpan, h, hin]

theorem c8_witness :
    findInlineMatch (("- Test...").data)
      ⟨(" - ").data, [], .lineAnchored listMarkerConsume, .endAnchor⟩ ⟨1, 6⟩ .Start = -1 :=
  (c8_lineAnchored_containment (("- Test...").data) ((" - ").data) [] .endAnchor
    listMarkerConsume ⟨1, 6⟩ 2 (by decide)).1 (by decide)

example :
    applyEdits multiLineTestText
      (toggleRegionFormatGlobally multiLineTestText inlineCodeSpec blockCodeSpec
        [⟨0, 0⟩]).1 = (("``").data) ++ multiLineTestText := by decide

example :
    applyEdits multiLineTestText
      (toggleRegionFormatGlobally multiLineTestText inlineCodeSpec blockCodeSpec
        [⟨0, multiLineTestText.length⟩]).1 =
      codeFence ++ '\n' :: multiLineTestText ++ '\n' :: codeFence := by decide

example :
    (toggleRegionFormatGlobally multiLineTestText inlineCodeSpec blockCodeSpec
        [⟨0, multiLineTestText.length⟩]).2 =
      [⟨0, (codeFence ++ '\n' :: multiLineTestText ++ '\n' :: codeFence).length⟩] := by
  decide

example : tabsToSpaces 4 ['\t'] = (("    ").data) := by decide
example : tabsToSpaces 4 ['\t', ' ', ' '] = (("      ").data) := by decide
example : tabsToSpaces 4 [' ', ' ', '\t', ' ', ' '] = (("      ").data) := by decide

-- ### Generic list and line-geometry lemmas

theorem takeWhile_append_all {p : Char → Bool} (l1 l2 : List Char)
    (h : ∀ a ∈ l1, p a = true) :
    (l1 ++ l2).takeWhile p = l1 ++ l2.takeWhile p := by
  induction l1 with
  | nil => simp
  | cons a as ih =>
    simp only [List.cons_append, List.takeWhile_cons, h a (by simp), if_pos trivial,
      if_true]
    rw [ih (fun b hb => h b (by simp [hb]))]

theorem takeWhile_all_self {p : Char → Bool} (l : List Char)
    (h : ∀ a ∈ l, p a = true) : l.takeWhile p = l := by
  have h2 := takeWhile_append_all l [] h
  simpa using h2

theorem applyEdits_insert2 (A B C X Y : List Char) :
    applyEdits (A ++ (B ++ C))
      [⟨A.length, A.length, X⟩, ⟨A.length + B.length, A.length + B.length, Y⟩] =
      A ++ (X ++ (B ++ (Y ++ C))) := by
  unfold applyEdits
  simp only [applyEditsFrom, Nat.sub_zero, Nat.add_sub_cancel_left, Nat.sub_self,
    List.take_left, List.drop_left]
  simp [List.append_assoc]

theorem applyEdits_delete2 (A X B Y C : List Char) :
    applyEdits (A ++ (X ++ (B ++ (Y ++ C))))
      [⟨A.length, A.length + X.length, []⟩,
       ⟨A.length + X.length + B.length,
        A.length + X.length + B.length + Y.length, []⟩] =
      A ++ (B ++ C) := by
  unfold applyEdits
  have hd1 : (A ++ (X ++ (B ++ (Y ++ C)))).drop (A.length + X.length - 0) =
      B ++ (Y ++ C) := by
    rw [Nat.sub_zero, List.drop_append X.length, List.drop_left]
  have e1 : A.length + X.length + B.length + Y.length - (A.length + X.length) =
      B.length + Y.length := by omega
  have hd2 : (B ++ (Y ++ C)).drop (B.length + Y.length) = C := by
    rw [List.drop_append Y.length, List.drop_left]
  simp only [applyEditsFrom, Nat.sub_zero, Nat.add_sub_cancel_left, hd1, e1, hd2,
    List.take_left]
  simp [List.append_assoc]

-- ### The toggle engine's branches

theorem blockWrapped_cursor (doc : List Char) (bspec : RegionSpec) (p : Nat) :
    blockWrapped doc bspec ⟨p, p⟩ = false := by
  simp [blockWrapped]

theorem toggleRange_insert_single_line (doc : List Char) (ispec bspec : RegionSpec)
    (sel : SelRange)
    (hb : blockWrapped doc bspec sel = false)
    (hi : inlineWrapped doc ispec sel = false)
    (hsl : lineStartAt doc sel.fromPos = lineStartAt doc sel.toPos) :
    toggleRange doc ispec bspec sel =
      ([⟨sel.fromPos, sel.fromPos, ispec.startTemplate⟩,
        ⟨sel.toPos, sel.toPos, ispec.endTemplate⟩],
       ⟨sel.fromPos + ispec.startTemplate.length,
        sel.toPos + ispec.startTemplate.length⟩) := by
  simp only [toggleRange, hb, Bool.false_eq_true, if_false]
  cases h1 : findInlineSpan doc ispec sel .Start with
  | some ab =>
    cases h2 : findInlineSpan doc ispec sel .End with
    | some ab2 =>
      exfalso
      rw [inlineWrapped, h1, h2] at hi
      simp at hi
    | none =>
      obtain ⟨a, b⟩ := ab
      simp [h1, h2, hsl]
  | none =>
    cases h2 : findInlineSpan doc ispec sel .End with
    | some ab2 =>
      obtain ⟨a2, b2⟩ := ab2
      simp [h1, h2, hsl]
    | none => simp [h1, h2, hsl]

theorem toggleRange_insert_multi_line (doc : List Char) (ispec bspec : RegionSpec)
    (sel : SelRange)
    (hb : blockWrapped doc bspec sel = false)
    (hi : inlineWrapped doc ispec sel = false)
    (hml : lineStartAt doc sel.fromPos ≠ lineStartAt doc sel.toPos) :
    toggleRange doc ispec bspec sel =
      ([⟨lineStartAt doc sel.fromPos, lineStartAt doc sel.fromPos,
          bspec.startTemplate ++ ['\n']⟩,
        ⟨lineEndAt doc sel.toPos, lineEndAt doc sel.toPos, '\n' :: bspec.endTemplate⟩],
       ⟨lineStartAt doc sel.fromPos,
        lineEndAt doc sel.toPos + bspec.startTemplate.length + 1 + 1 +
          bspec.endTemplate.length⟩) := by
  simp only [toggleRange, hb, Bool.false_eq_true, if_false]
  cases h1 : findInlineSpan doc ispec sel .Start with
  | some ab =>
    cases h2 : findInlineSpan doc ispec sel .End with
    | some ab2 =>
      exfalso
      rw [inlineWrapped, h1, h2] at hi
      simp at hi
    | none =>
      obtain ⟨a, b⟩ := ab
      simp [h1, h2, hml]
  | none =>
    cases h2 : findInlineSpan doc ispec sel .End with
    | some ab2 =>
      obtain ⟨a2, b2⟩ := ab2
      simp [h1, h2, hml]
    | none => simp [h1, h2, hml]

theorem takeWhile_notNL_reverse_eq_nil (pre : List Char)
    (h : pre = [] ∨ pre.getLast? = some '\n') :
    pre.reverse.takeWhile notNL = [] := by
  rcases h with h | h
  · simp [h]
  · have h2 : pre.reverse.head? = some '\n' := by rw [List.head?_reverse]; exact h
    cases hr : pre.reverse with
    | nil => simp
    | cons a t =>
      rw [hr] at h2
      simp only [List.head?_cons, Option.some.injEq] at h2
      subst h2
      simp [List.takeWhile_cons, notNL]

theorem takeWhile_notNL_head_eq_nil (post : List Char)
    (h : post = [] ∨ post.head? = some '\n') :
    post.takeWhile notNL = [] := by
  rcases h with h | h
  · simp [h]
  · cases hp : post with
    | nil => simp
    | cons a t =>
      rw [hp] at h
      simp only [List.head?_cons, Option.some.injEq] at h
      subst h
      simp [List.takeWhile_cons, notNL]

theorem lineStartAt_shift (pre seg rest : List Char)
    (hpre : pre = [] ∨ pre.getLast? = some '\n')
    (hseg : ∀ c ∈ seg, notNL c = true) :
    lineStartAt (pre ++ (seg ++ rest)) (pre.length + seg.length) = pre.length := by
  unfold lineStartAt
  have ht : (pre ++ (seg ++ rest)).take (pre.length + seg.length) = pre ++ seg := by
    rw [List.take_append seg.length, List.take_left]
  rw [ht, List.reverse_append,
    takeWhile_append_all _ _ (fun a ha => hseg a (by simpa using ha)),
    takeWhile_notNL_reverse_eq_nil pre hpre]
  simp

theorem lineStartAt_shift_k (pre seg rest : List Char)
    (hpre : pre = [] ∨ pre.getLast? = some '\n')
    (k : Nat)
    (hseg : ∀ c ∈ seg.take k, notNL c = true)
    (hk : k ≤ seg.length) :
    lineStartAt (pre ++ (seg ++ rest)) (pre.length + k) = pre.length := by
  have e : pre ++ (seg ++ rest) = pre ++ (seg.take k ++ (seg.drop k ++ rest)) := by
    rw [← List.append_assoc (seg.take k), List.take_append_drop]
  have e2 : pre.length + k = pre.length + (seg.take k).length := by
    simp [List.length_take]
    omega
  rw [e, e2]
  exact lineStartAt_shift pre (seg.take k) _ hpre hseg

theorem lineEndAt_shift (pre seg rest : List Char)
    (hseg : ∀ c ∈ seg, notNL c = true)
    (hrest : rest = [] ∨ rest.head? = some '\n') :
    lineEndAt (pre ++ (seg ++ rest)) pre.length = pre.length + seg.length := by
  unfold lineEndAt
  rw [List.drop_left, takeWhile_append_all _ _ hseg,
    takeWhile_notNL_head_eq_nil rest hrest]
  simp

theorem lineEndAt_shift_k (pre seg rest : List Char)
    (hrest : rest = [] ∨ rest.head? = some '\n')
    (k : Nat)
    (hseg : ∀ c ∈ seg.drop k, notNL c = true)
    (hk : k ≤ seg.length) :
    lineEndAt (pre ++ (seg ++ rest)) (pre.length + k) = pre.length + seg.length := by
  have e : pre ++ (seg ++ rest) = (pre ++ seg.take k) ++ (seg.drop k ++ rest) := by
    simp only [List.append_assoc]
    rw [← List.append_assoc (seg.take k), List.take_append_drop]
  have e2 : pre.length + k = (pre ++ seg.take k).length := by
    simp [List.length_take]
    omega
  rw [e, e2, lineEndAt_shift (pre ++ seg.take k) (seg.drop k) rest hseg hrest]
  simp [List.length_take]
  omega

theorem lineAt_shift (pre seg rest : List Char)
    (hpre : pre = [] ∨ pre.getLast? = some '\n')
    (hseg : ∀ c ∈ seg, notNL c = true)
    (hrest : rest = [] ∨ rest.head? = some '\n')
    (k : Nat) (hk : k ≤ seg.length) :
    lineAt (pre ++ (seg ++ rest)) (pre.length + k) = seg := by
  unfold lineAt
  rw [lineStartAt_shift_k pre seg rest hpre k
    (fun c hc => hseg c (List.take_subset k seg hc)) hk, List.drop_left,
    takeWhile_append_all _ _ hseg, takeWhile_notNL_head_eq_nil rest hrest]
  simp

theorem lineStartAt_after_newline (A B : List Char) (k : Nat) (hk : k ≤ B.length) :
    A.length + 1 ≤ lineStartAt (A ++ ('\n' :: B)) (A.length + 1 + k) := by
  unfold lineStartAt
  have ht : (A ++ ('\n' :: B)).take (A.length + 1 + k) = A ++ ('\n' :: B.take k) := by
    have e : A.length + 1 + k = A.length + (k + 1) := by omega
    rw [e, List.take_append (k + 1), List.take_succ_cons]
  rw [ht, List.reverse_append]
  have e3 : ('\n' :: B.take k).reverse ++ A.reverse =
      (B.take k).reverse ++ ('\n' :: A.reverse) := by
    simp
  rw [e3]
  have hlen : (((B.take k).reverse ++ ('\n' :: A.reverse)).takeWhile notNL).length ≤ k := by
    rw [List.takeWhile_append]
    split
    · rw [List.takeWhile_cons]
      have hnl : notNL '\n' = false := by simp [notNL]
      rw [hnl]
      simp [List.length_take]
    · calc (((B.take k).reverse).takeWhile notNL).length
          ≤ ((B.take k).reverse).length := (List.takeWhile_sublist notNL).length_le
        _ ≤ k := by simp [List.length_take]
  omega

/-- C5: for an empty (cursor) selection that is not already inside a
wrapped inline region, toggling with an inline spec whose delimiter is
`D` inserts exactly `2 * D.length` characters at the cursor — the
delimiter twice, back to back — and the updated selection is a cursor
at the midpoint, between the two inserted delimiters. -/
theorem c5_cursor_inline_insertion (pre post D : List Char) (bspec : RegionSpec)
    (hnw : inlineWrapped (pre ++ post) (RegionSpec.of D)
      ⟨pre.length, pre.length⟩ = false) :
    applyEdits (pre ++ post)
        (toggleRegionFormatGlobally (pre ++ post) (RegionSpec.of D) bspec
          [⟨pre.length, pre.length⟩]).1 = pre ++ (D ++ (D ++ post)) ∧
    (applyEdits (pre ++ post)
        (toggleRegionFormatGlobally (pre ++ post) (RegionSpec.of D) bspec
          [⟨pre.length, pre.length⟩]).1).length =
      (pre ++ post).length + 2 * D.length ∧
    (toggleRegionFormatGlobally (pre ++ post) (RegionSpec.of D) bspec
        [⟨pre.length, pre.length⟩]).2 =
      [⟨pre.length + D.length, pre.length + D.length⟩] := by
  have ht := toggleRange_insert_single_line (pre ++ post) (RegionSpec.of D) bspec
    ⟨pre.length, pre.length⟩ (blockWrapped_cursor _ _ _) hnw rfl
  have hops : (toggleRegionFormatGlobally (pre ++ post) (RegionSpec.of D) bspec
      [⟨pre.length, pre.length⟩]).1 =
      [⟨pre.length, pre.length, D⟩, ⟨pre.length, pre.length, D⟩] := by
    simp only [toggleRegionFormatGlobally, List.map_cons, List.map_nil,
      List.flatMap_cons, List.flatMap_nil, ht, List.append_nil]
    rfl
  have hsel : (toggleRegionFormatGlobally (pre ++ post) (RegionSpec.of D) bspec
      [⟨pre.length, pre.length⟩]).2 =
      [⟨pre.length + D.length, pre.length + D.length⟩] := by
    simp only [toggleRegionFormatGlobally, List.map_cons, List.map_nil, ht]
    rfl
  have happ : applyEdits (pre ++ post)
      [⟨pre.length, pre.length, D⟩, ⟨pre.length, pre.length, D⟩] =
      pre ++ (D ++ (D ++ post)) := by
    have h2 := applyEdits_insert2 pre [] post D D
    simpa using h2
  refine ⟨by rw [hops, happ], ?_, hsel⟩
  rw [hops, happ]
  simp only [List.length_append]
  omega

theorem c5_witness :
    applyEdits ((("ab").data) ++ (("cd").data))
      (toggleRegionFormatGlobally ((("ab").data) ++ (("cd").data))
        (RegionSpec.of (("**").data)) blockCodeSpec
        [⟨(("ab").data).length, (("ab").data).length⟩]).1 =
      (("ab").data) ++ ((("**").data) ++ ((("**").data) ++ (("cd").data))) :=
  (c5_cursor_inline_insertion (("ab").data) (("cd").data) (("**").data) blockCodeSpec
    (by decide)).1

/-- C4: an unwrapped selection spanning several lines is toggled by
block insertion — the block spec's start delimiter becomes its own line
immediately before the selection's first line, the original lines stay
unchanged in between, and the end delimiter becomes its own line
immediately after the selection's last line; when the selection covered
the whole document, the updated selection spans the entire new text,
fence lines included. -/
theorem c4_multiline_block_insertion (pre m1 m2 post : List Char) (i k : Nat)
    (ispec bspec : RegionSpec)
    (hpre : pre = [] ∨ pre.getLast? = some '\n')
    (hpost : post = [] ∨ post.head? = some '\n')
    (hi : i ≤ m1.length)
    (hm1 : ∀ c ∈ m1.take i, notNL c = true)
    (hk : k ≤ m2.length)
    (hm2 : ∀ c ∈ m2.drop k, notNL c = true)
    (hb : blockWrapped (pre ++ (m1 ++ ('\n' :: (m2 ++ post)))) bspec
      ⟨pre.length + i, pre.length + m1.length + 1 + k⟩ = false)
    (hiw : inlineWrapped (pre ++ (m1 ++ ('\n' :: (m2 ++ post)))) ispec
      ⟨pre.length + i, pre.length + m1.length + 1 + k⟩ = false) :
    applyEdits (pre ++ (m1 ++ ('\n' :: (m2 ++ post))))
        (toggleRegionFormatGlobally (pre ++ (m1 ++ ('\n' :: (m2 ++ post)))) ispec bspec
          [⟨pre.length + i, pre.length + m1.length + 1 + k⟩]).1 =
      pre ++ (bspec.startTemplate ++ ('\n' ::
        (m1 ++ ('\n' :: (m2 ++ ('\n' :: (bspec.endTemplate ++ post))))))) ∧
    (toggleRegionFormatGlobally (pre ++ (m1 ++ ('\n' :: (m2 ++ post)))) ispec bspec
        [⟨pre.length + i, pre.length + m1.length + 1 + k⟩]).2 =
      [⟨pre.length, pre.length + m1.length + 1 + m2.length +
        bspec.startTemplate.length + 1 + 1 + bspec.endTemplate.length⟩] ∧
    (pre = [] → post = [] →
      (toggleRegionFormatGlobally (pre ++ (m1 ++ ('\n' :: (m2 ++ post)))) ispec bspec
          [⟨pre.length + i, pre.length + m1.length + 1 + k⟩]).2 =
        [⟨0, (applyEdits (pre ++ (m1 ++ ('\n' :: (m2 ++ post))))
          (toggleRegionFormatGlobally (pre ++ (m1 ++ ('\n' :: (m2 ++ post)))) ispec
            bspec [⟨pre.length + i, pre.length + m1.length + 1 + k⟩]).1).length⟩]) := by
  have hfrom : lineStartAt (pre ++ (m1 ++ ('\n' :: (m2 ++ post)))) (pre.length + i) =
      pre.length :=
    lineStartAt_shift_k pre m1 ('\n' :: (m2 ++ post)) hpre i hm1 hi
  have hto_end : lineEndAt (pre ++ (m1 ++ ('\n' :: (m2 ++ post))))
      (pre.length + m1.length + 1 + k) = pre.length + m1.length + 1 + m2.length := by
    have e : pre ++ (m1 ++ ('\n' :: (m2 ++ post))) =
        (pre ++ (m1 ++ ['\n'])) ++ (m2 ++ post) := by
      simp
    have e2 : pre.length + m1.length + 1 + k = (pre ++ (m1 ++ ['\n'])).length + k := by
      simp only [List.length_append, List.length_cons, List.length_nil]
      omega
    rw [e, e2, lineEndAt_shift_k (pre ++ (m1 ++ ['\n'])) m2 post hpost k hm2 hk]
    simp only [List.length_append, List.length_cons, List.length_nil]
    omega
  have hml : lineStartAt (pre ++ (m1 ++ ('\n' :: (m2 ++ post)))) (pre.length + i) ≠
      lineStartAt (pre ++ (m1 ++ ('\n' :: (m2 ++ post))))
        (pre.length + m1.length + 1 + k) := by
    have hge := lineStartAt_after_newline (pre ++ m1) (m2 ++ post) k
      (by simp only [List.length_append]; omega)
    have e : (pre ++ m1) ++ ('\n' :: (m2 ++ post)) =
        pre ++ (m1 ++ ('\n' :: (m2 ++ post))) := by simp
    rw [e] at hge
    simp only [List.length_append] at hge
    rw [hfrom]
    omega
  have ht := toggleRange_insert_multi_line (pre ++ (m1 ++ ('\n' :: (m2 ++ post))))
    ispec bspec ⟨pre.length + i, pre.length + m1.length + 1 + k⟩ hb hiw hml
  have hops : (toggleRegionFormatGlobally (pre ++ (m1 ++ ('\n' :: (m2 ++ post)))) ispec
      bspec [⟨pre.length + i, pre.length + m1.length + 1 + k⟩]).1 =
      [⟨pre.length, pre.length, bspec.startTemplate ++ ['\n']⟩,
       ⟨pre.length + m1.length + 1 + m2.length, pre.length + m1.length + 1 + m2.length,
        '\n' :: bspec.endTemplate⟩] := by
    simp only [toggleRegionFormatGlobally, List.map_cons, List.map_nil,
      List.flatMap_cons, List.flatMap_nil, ht, List.append_nil]
    rw [hfrom, hto_end]
  have hsel : (toggleRegionFormatGlobally (pre ++ (m1 ++ ('\n' :: (m2 ++ post)))) ispec
      bspec [⟨pre.length + i, pre.length + m1.length + 1 + k⟩]).2 =
      [⟨pre.length, pre.length + m1.length + 1 + m2.length +
        bspec.startTemplate.length + 1 + 1 + bspec.endTemplate.length⟩] := by
    simp only [toggleRegionFormatGlobally, List.map_cons, List.map_nil, ht]
    rw [hfrom, hto_end]
  have happ : applyEdits (pre ++ (m1 ++ ('\n' :: (m2 ++ post))))
      (toggleRegionFormatGlobally (pre ++ (m1 ++ ('\n' :: (m2 ++ post)))) ispec bspec
        [⟨pre.length + i, pre.length + m1.length + 1 + k⟩]).1 =
      pre ++ (bspec.startTemplate ++ ('\n' ::
        (m1 ++ ('\n' :: (m2 ++ ('\n' :: (bspec.endTemplate ++ post))))))) := by
    rw [hops]
    have h2 := applyEdits_insert2 pre (m1 ++ ('\n' :: m2)) post
      (bspec.startTemplate ++ ['\n']) ('\n' :: bspec.endTemplate)
    rw [show (m1 ++ ('\n' :: m2)) ++ post = m1 ++ ('\n' :: (m2 ++ post)) by simp] at h2
    rw [show pre.length + (m1 ++ ('\n' :: m2)).length =
        pre.length + m1.length + 1 + m2.length by
      simp only [List.length_append, List.length_cons]; omega] at h2
    rw [h2]
    simp
  refine ⟨happ, hsel, ?_⟩
  intro hp hq
  subst hp
  subst hq
  rw [hsel, happ]
  simp only [List.length_append, List.length_cons, List.length_nil, List.nil_append,
    List.append_nil, List.cons.injEq, SelRange.mk.injEq, and_true, true_and]
  omega

theorem c4_witness :
    applyEdits (([] : List Char) ++ ((("abc").data) ++ ('\n' :: ((("def").data) ++ []))))
      (toggleRegionFormatGlobally
        (([] : List Char) ++ ((("abc").data) ++ ('\n' :: ((("def").data) ++ []))))
        inlineCodeSpec blockCodeSpec
        [⟨(([] : List Char)).length + 0,
          (([] : List Char)).length + (("abc").data).length + 1 + 3⟩]).1 =
      ([] : List Char) ++ (blockCodeSpec.startTemplate ++ ('\n' ::
        ((("abc").data) ++ ('\n' :: ((("def").data) ++
          ('\n' :: (blockCodeSpec.endTemplate ++ []))))))) :=
  (c4_multiline_block_insertion [] (("abc").data) (("def").data) [] 0 3
    inlineCodeSpec blockCodeSpec (Or.inl rfl) (Or.inl rfl) (by decide) (by decide)
    (by decide) (by decide) (by decide) (by decide)).1

-- ### The toggle involution (C3)

theorem c3_counterexample :
    applyEdits
        (applyEdits (("_y").data)
          (toggleRegionFormatGlobally (("_y").data) mismatchedSpec blockCodeSpec
            [⟨0, 2⟩]).1)
        (toggleRegionFormatGlobally
          (applyEdits (("_y").data)
            (toggleRegionFormatGlobally (("_y").data) mismatchedSpec blockCodeSpec
              [⟨0, 2⟩]).1)
          mismatchedSpec blockCodeSpec
          (toggleRegionFormatGlobally (("_y").data) mismatchedSpec blockCodeSpec
            [⟨0, 2⟩]).2).1 ≠ (("_y").data) := by
  decide

theorem toggleRange_remove_inline (doc : List Char) (ispec bspec : RegionSpec)
    (sel : SelRange) (s1 e1 s2 e2 : Nat)
    (hb : blockWrapped doc bspec sel = false)
    (h1 : findInlineSpan doc ispec sel .Start = some (s1, e1))
    (h2 : findInlineSpan doc ispec sel .End = some (s2, e2)) :
    toggleRange doc ispec bspec sel =
      ([⟨s1, e1, []⟩, ⟨s2, e2, []⟩], ⟨s1, s2 - (e1 - s1)⟩) := by
  simp only [toggleRange, hb, Bool.false_eq_true, if_false, h1, h2]

theorem span_start_outside (A B D : List Char) (sel : SelRange)
    (h : sel.fromPos = A.length + D.length) :
    findInlineSpan (A ++ (D ++ B)) (RegionSpec.of D) sel .Start =
      some (A.length, A.length + D.length) := by
  have hs : sliceLit (A ++ (D ++ B)) A.length D := by
    show ((A ++ (D ++ B)).drop A.length).take D.length = D
    rw [List.drop_left, List.take_left]
  show findInlineSpan (A ++ (D ++ B)) ⟨D, D, .literal D, .literal D⟩ sel .Start = _
  simp only [findInlineSpan, h, Nat.add_sub_cancel]
  simp [hs]

theorem span_end_outside (A B D : List Char) (sel : SelRange)
    (h : sel.toPos = A.length) :
    findInlineSpan (A ++ (D ++ B)) (RegionSpec.of D) sel .End =
      some (A.length, A.length + D.length) := by
  have hs : sliceLit (A ++ (D ++ B)) A.length D := by
    show ((A ++ (D ++ B)).drop A.length).take D.length = D
    rw [List.drop_left, List.take_left]
  show findInlineSpan (A ++ (D ++ B)) ⟨D, D, .literal D, .literal D⟩ sel .End = _
  simp only [findInlineSpan, h]
  simp [hs]

theorem lineStartAt_add_no_newline (doc : List Char) (p k : Nat)
    (hk : p + k ≤ doc.length)
    (h : ∀ c ∈ (doc.drop p).take k, notNL c = true) :
    lineStartAt doc (p + k) = lineStartAt doc p := by
  unfold lineStartAt
  rw [List.take_add, List.reverse_append,
    takeWhile_append_all _ _ (fun c hc => h c (by simpa using hc))]
  have hlen : ((doc.drop p).take k).length = k := by
    simp only [List.length_take, List.length_drop]
    omega
  have hrun : (((doc.take p).reverse).takeWhile notNL).length ≤ p := by
    calc (((doc.take p).reverse).takeWhile notNL).length
        ≤ (doc.take p).reverse.length := (List.takeWhile_sublist notNL).length_le
      _ ≤ p := by simp [List.length_take]
  simp only [List.length_append, List.length_reverse, hlen]
  omega

theorem blockWrapped_same_line (doc : List Char) (bspec : RegionSpec) (sel : SelRange)
    (h : lineStartAt doc sel.fromPos = lineStartAt doc sel.toPos) :
    blockWrapped doc bspec sel = false := by
  simp [blockWrapped, h]

theorem block_insert_parts (pre m1 m2 post : List Char) (i k : Nat)
    (ispec bspec : RegionSpec)
    (hpre : pre = [] ∨ pre.getLast? = some '\n')
    (hpost : post = [] ∨ post.head? = some '\n')
    (hi : i ≤ m1.length)
    (hm1 : ∀ c ∈ m1.take i, notNL c = true)
    (hk : k ≤ m2.length)
    (hm2 : ∀ c ∈ m2.drop k, notNL c = true)
    (hb : blockWrapped (pre ++ (m1 ++ ('\n' :: (m2 ++ post)))) bspec
      ⟨pre.length + i, pre.length + m1.length + 1 + k⟩ = false)
    (hiw : inlineWrapped (pre ++ (m1 ++ ('\n' :: (m2 ++ post)))) ispec
      ⟨pre.length + i, pre.length + m1.length + 1 + k⟩ = false) :
    (toggleRegionFormatGlobally (pre ++ (m1 ++ ('\n' :: (m2 ++ post)))) ispec bspec
        [⟨pre.length + i, pre.length + m1.length + 1 + k⟩]).1 =
      [⟨pre.length, pre.length, bspec.startTemplate ++ ['\n']⟩,
       ⟨pre.length + m1.length + 1 + m2.length, pre.length + m1.length + 1 + m2.length,
        '\n' :: bspec.endTemplate⟩] ∧
    (toggleRegionFormatGlobally (pre ++ (m1 ++ ('\n' :: (m2 ++ post)))) ispec bspec
        [⟨pre.length + i, pre.length + m1.length + 1 + k⟩]).2 =
      [⟨pre.length, pre.length + m1.length + 1 + m2.length +
        bspec.startTemplate.length + 1 + 1 + bspec.endTemplate.length⟩] ∧
    applyEdits (pre ++ (m1 ++ ('\n' :: (m2 ++ post))))
        (toggleRegionFormatGlobally (pre ++ (m1 ++ ('\n' :: (m2 ++ post)))) ispec bspec
          [⟨pre.length + i, pre.length + m1.length + 1 + k⟩]).1 =
      pre ++ (bspec.startTemplate ++ ('\n' ::
        (m1 ++ ('\n' :: (m2 ++ ('\n' :: (bspec.endTemplate ++ post))))))) := by
  have hfrom : lineStartAt (pre ++ (m1 ++ ('\n' :: (m2 ++ post)))) (pre.length + i) =
      pre.length :=
    lineStartAt_shift_k pre m1 ('\n' :: (m2 ++ post)) hpre i hm1 hi
  have hto_end : lineEndAt (pre ++ (m1 ++ ('\n' :: (m2 ++ post))))
      (pre.length + m1.length + 1 + k) = pre.length + m1.length + 1 + m2.length := by
    have e : pre ++ (m1 ++ ('\n' :: (m2 ++ post))) =
        (pre ++ (m1 ++ ['\n'])) ++ (m2 ++ post) := by
      simp
    have e2 : pre.length + m1.length + 1 + k = (pre ++ (m1 ++ ['\n'])).length + k := by
      simp only [List.length_append, List.length_cons, List.length_nil]
      omega
    rw [e, e2, lineEndAt_shift_k (pre ++ (m1 ++ ['\n'])) m2 post hpost k hm2 hk]
    simp only [List.length_append, List.length_cons, List.length_nil]
    omega
  have hml : lineStartAt (pre ++ (m1 ++ ('\n' :: (m2 ++ post)))) (pre.length + i) ≠
      lineStartAt (pre ++ (m1 ++ ('\n' :: (m2 ++ post))))
        (pre.length + m1.length + 1 + k) := by
    have hge := lineStartAt_after_newline (pre ++ m1) (m2 ++ post) k
      (by simp only [List.length_append]; omega)
    have e : (pre ++ m1) ++ ('\n' :: (m2 ++ post)) =
        pre ++ (m1 ++ ('\n' :: (m2 ++ post))) := by simp
    rw [e] at hge
    simp only [List.length_append] at hge
    rw [hfrom]
    omega
  have ht := toggleRange_insert_multi_line (pre ++ (m1 ++ ('\n' :: (m2 ++ post))))
    ispec bspec ⟨pre.length + i, pre.length + m1.length + 1 + k⟩ hb hiw hml
  have hops : (toggleRegionFormatGlobally (pre ++ (m1 ++ ('\n' :: (m2 ++ post)))) ispec
      bspec [⟨pre.length + i, pre.length + m1.length + 1 + k⟩]).1 =
      [⟨pre.length, pre.length, bspec.startTemplate ++ ['\n']⟩,
       ⟨pre.length + m1.length + 1 + m2.length, pre.length + m1.length + 1 + m2.length,
        '\n' :: bspec.endTemplate⟩] := by
    simp only [toggleRegionFormatGlobally, List.map_cons, List.map_nil,
      List.flatMap_cons, List.flatMap_nil, ht, List.append_nil]
    rw [hfrom, hto_end]
  have hsel : (toggleRegionFormatGlobally (pre ++ (m1 ++ ('\n' :: (m2 ++ post)))) ispec
      bspec [⟨pre.length + i, pre.length + m1.length + 1 + k⟩]).2 =
      [⟨pre.length, pre.length + m1.length + 1 + m2.length +
        bspec.startTemplate.length + 1 + 1 + bspec.endTemplate.length⟩] := by
    simp only [toggleRegionFormatGlobally, List.map_cons, List.map_nil, ht]
    rw [hfrom, hto_end]
  refine ⟨hops, hsel, ?_⟩
  rw [hops]
  have h2 := applyEdits_insert2 pre (m1 ++ ('\n' :: m2)) post
    (bspec.startTemplate ++ ['\n']) ('\n' :: bspec.endTemplate)
  rw [show (m1 ++ ('\n' :: m2)) ++ post = m1 ++ ('\n' :: (m2 ++ post)) by simp] at h2
  rw [show pre.length + (m1 ++ ('\n' :: m2)).length =
      pre.length + m1.length + 1 + m2.length by
    simp only [List.length_append, List.length_cons]; omega] at h2
  rw [h2]
  simp

theorem involution_cursor_case (pre post D : List Char) (bspec : RegionSpec)
    (hnw : inlineWrapped (pre ++ post) (RegionSpec.of D)
      ⟨pre.length, pre.length⟩ = false) :
    applyEdits
        (applyEdits (pre ++ post)
          (toggleRegionFormatGlobally (pre ++ post) (RegionSpec.of D) bspec
            [⟨pre.length, pre.length⟩]).1)
        (toggleRegionFormatGlobally
          (applyEdits (pre ++ post)
            (toggleRegionFormatGlobally (pre ++ post) (RegionSpec.of D) bspec
              [⟨pre.length, pre.length⟩]).1)
          (RegionSpec.of D) bspec
          (toggleRegionFormatGlobally (pre ++ post) (RegionSpec.of D) bspec
            [⟨pre.length, pre.length⟩]).2).1 = pre ++ post := by
  have ht := toggleRange_insert_single_line (pre ++ post) (RegionSpec.of D) bspec
    ⟨pre.length, pre.length⟩ (blockWrapped_cursor _ _ _) hnw rfl
  have hops : (toggleRegionFormatGlobally (pre ++ post) (RegionSpec.of D) bspec
      [⟨pre.length, pre.length⟩]).1 =
      [⟨pre.length, pre.length, D⟩, ⟨pre.length, pre.length, D⟩] := by
    simp only [toggleRegionFormatGlobally, List.map_cons, List.map_nil,
      List.flatMap_cons, List.flatMap_nil, ht, List.append_nil]
    rfl
  have hsel1 : (toggleRegionFormatGlobally (pre ++ post) (RegionSpec.of D) bspec
      [⟨pre.length, pre.length⟩]).2 =
      [⟨pre.length + D.length, pre.length + D.length⟩] := by
    simp only [toggleRegionFormatGlobally, List.map_cons, List.map_nil, ht]
    rfl
  have happ1 : applyEdits (pre ++ post)
      [⟨pre.length, pre.length, D⟩, ⟨pre.length, pre.length, D⟩] =
      pre ++ (D ++ (D ++ post)) := by
    have h2 := applyEdits_insert2 pre [] post D D
    simpa using h2
  rw [hops, happ1, hsel1]
  have hsp1 : findInlineSpan (pre ++ (D ++ (D ++ post))) (RegionSpec.of D)
      ⟨pre.length + D.length, pre.length + D.length⟩ .Start =
      some (pre.length, pre.length + D.length) :=
    span_start_outside pre (D ++ post) D ⟨pre.length + D.length, pre.length + D.length⟩
      rfl
  have hsp2 : findInlineSpan (pre ++ (D ++ (D ++ post))) (RegionSpec.of D)
      ⟨pre.length + D.length, pre.length + D.length⟩ .End =
      some ((pre ++ D).length, (pre ++ D).length + D.length) := by
    have h2 := span_end_outside (pre ++ D) post D
      ⟨pre.length + D.length, pre.length + D.length⟩ (by simp)
    rw [show (pre ++ D) ++ (D ++ post) = pre ++ (D ++ (D ++ post)) by simp] at h2
    exact h2
  have ht2 := toggleRange_remove_inline (pre ++ (D ++ (D ++ post))) (RegionSpec.of D)
    bspec ⟨pre.length + D.length, pre.length + D.length⟩ _ _ _ _
    (blockWrapped_cursor _ _ _) hsp1 hsp2
  have hops2 : (toggleRegionFormatGlobally (pre ++ (D ++ (D ++ post)))
      (RegionSpec.of D) bspec [⟨pre.length + D.length, pre.length + D.length⟩]).1 =
      [⟨pre.length, pre.length + D.length, []⟩,
       ⟨(pre ++ D).length, (pre ++ D).length + D.length, []⟩] := by
    simp only [toggleRegionFormatGlobally, List.map_cons, List.map_nil,
      List.flatMap_cons, List.flatMap_nil, ht2, List.append_nil]
  rw [hops2]
  have hdel := applyEdits_delete2 pre D [] D post
  simp only [List.append_nil, List.nil_append, List.length_nil, Nat.add_zero] at hdel
  simp only [List.length_append]
  exact hdel

theorem involution_single_line_case (pre S post D : List Char) (bspec : RegionSpec)
    (hSn : ∀ c ∈ S, notNL c = true)
    (hnw : inlineWrapped (pre ++ (S ++ post)) (RegionSpec.of D)
      ⟨pre.length, pre.length + S.length⟩ = false) :
    applyEdits
        (applyEdits (pre ++ (S ++ post))
          (toggleRegionFormatGlobally (pre ++ (S ++ post)) (RegionSpec.of D) bspec
            [⟨pre.length, pre.length + S.length⟩]).1)
        (toggleRegionFormatGlobally
          (applyEdits (pre ++ (S ++ post))
            (toggleRegionFormatGlobally (pre ++ (S ++ post)) (RegionSpec.of D) bspec
              [⟨pre.length, pre.length + S.length⟩]).1)
          (RegionSpec.of D) bspec
          (toggleRegionFormatGlobally (pre ++ (S ++ post)) (RegionSpec.of D) bspec
            [⟨pre.length, pre.length + S.length⟩]).2).1 = pre ++ (S ++ post) := by
  have hsl : lineStartAt (pre ++ (S ++ post)) (pre.length + S.length) =
      lineStartAt (pre ++ (S ++ post)) pre.length := by
    refine lineStartAt_add_no_newline (pre ++ (S ++ post)) pre.length S.length
      (by simp only [List.length_append]; omega) ?_
    intro c hc
    rw [List.drop_left, List.take_left] at hc
    exact hSn c hc
  have ht := toggleRange_insert_single_line (pre ++ (S ++ post)) (RegionSpec.of D) bspec
    ⟨pre.length, pre.length + S.length⟩
    (blockWrapped_same_line _ _ _ hsl.symm) hnw hsl.symm
  have hops : (toggleRegionFormatGlobally (pre ++ (S ++ post)) (RegionSpec.of D) bspec
      [⟨pre.length, pre.length + S.length⟩]).1 =
      [⟨pre.length, pre.length, D⟩, ⟨pre.length + S.length, pre.length + S.length, D⟩] := by
    simp only [toggleRegionFormatGlobally, List.map_cons, List.map_nil,
      List.flatMap_cons, List.flatMap_nil, ht, List.append_nil]
    rfl
  have hsel1 : (toggleRegionFormatGlobally (pre ++ (S ++ post)) (RegionSpec.of D) bspec
      [⟨pre.length, pre.length + S.length⟩]).2 =
      [⟨pre.length + D.length, pre.length + S.length + D.length⟩] := by
    simp only [toggleRegionFormatGlobally, List.map_cons, List.map_nil, ht]
    rfl
  have happ1 : applyEdits (pre ++ (S ++ post))
      [⟨pre.length, pre.length, D⟩, ⟨pre.length + S.length, pre.length + S.length, D⟩] =
      pre ++ (D ++ (S ++ (D ++ post))) := applyEdits_insert2 pre S post D D
  rw [hops, happ1, hsel1]
  have hsp1 : findInlineSpan (pre ++ (D ++ (S ++ (D ++ post)))) (RegionSpec.of D)
      ⟨pre.length + D.length, pre.length + S.length + D.length⟩ .Start =
      some (pre.length, pre.length + D.length) :=
    span_start_outside pre (S ++ (D ++ post)) D
      ⟨pre.length + D.length, pre.length + S.length + D.length⟩ rfl
  have hsp2 : findInlineSpan (pre ++ (D ++ (S ++ (D ++ post)))) (RegionSpec.of D)
      ⟨pre.length + D.length, pre.length + S.length + D.length⟩ .End =
      some ((pre ++ (D ++ S)).length, (pre ++ (D ++ S)).length + D.length) := by
    have h2 := span_end_outside (pre ++ (D ++ S)) post D
      ⟨pre.length + D.length, pre.length + S.length + D.length⟩
      (by simp only [List.length_append]; omega)
    rw [show (pre ++ (D ++ S)) ++ (D ++ post) = pre ++ (D ++ (S ++ (D ++ post)))
      by simp] at h2
    exact h2
  have hb2 : blockWrapped (pre ++ (D ++ (S ++ (D ++ post)))) bspec
      ⟨pre.length + D.length, pre.length + S.length + D.length⟩ = false := by
    refine blockWrapped_same_line _ _ _ ?_
    show lineStartAt _ (pre.length + D.length) = lineStartAt _ (pre.length + S.length + D.length)
    have h3 : lineStartAt (pre ++ (D ++ (S ++ (D ++ post))))
        (pre.length + D.length + S.length) =
        lineStartAt (pre ++ (D ++ (S ++ (D ++ post)))) (pre.length + D.length) := by
      refine lineStartAt_add_no_newline _ (pre.length + D.length) S.length
        (by simp only [List.length_append]; omega) ?_
      intro c hc
      rw [show pre ++ (D ++ (S ++ (D ++ post))) = (pre ++ D) ++ (S ++ (D ++ post))
          by simp,
        show pre.length + D.length = (pre ++ D).length by simp,
        List.drop_left, List.take_left] at hc
      exact hSn c hc
    rw [show pre.length + S.length + D.length = pre.length + D.length + S.length
      by omega]
    exact h3.symm
  have ht2 := toggleRange_remove_inline (pre ++ (D ++ (S ++ (D ++ post))))
    (RegionSpec.of D) bspec ⟨pre.length + D.length, pre.length + S.length + D.length⟩
    _ _ _ _ hb2 hsp1 hsp2
  have hops2 : (toggleRegionFormatGlobally (pre ++ (D ++ (S ++ (D ++ post))))
      (RegionSpec.of D) bspec
      [⟨pre.length + D.length, pre.length + S.length + D.length⟩]).1 =
      [⟨pre.length, pre.length + D.length, []⟩,
       ⟨(pre ++ (D ++ S)).length, (pre ++ (D ++ S)).length + D.length, []⟩] := by
    simp only [toggleRegionFormatGlobally, List.map_cons, List.map_nil,
      List.flatMap_cons, List.flatMap_nil, ht2, List.append_nil]
  rw [hops2]
  have hdel := applyEdits_delete2 pre D S D post
  rw [show (pre ++ (D ++ S)).length = pre.length + D.length + S.length by
    simp only [List.length_append]; omega]
  exact hdel

theorem block_remove_parts (P Q R : List Char) (ispec bspec : RegionSpec)
    (hp : P = [] ∨ P.getLast? = some '\n')
    (hq : R = [] ∨ R.head? = some '\n')
    (hts : ∀ c ∈ bspec.startTemplate, notNL c = true)
    (hte : ∀ c ∈ bspec.endTemplate, notNL c = true)
    (hfs : lineMatches bspec.startMatcher bspec.startTemplate = true)
    (hfe : lineMatches bspec.endMatcher bspec.endTemplate = true) :
    applyEdits
      (P ++ (bspec.startTemplate ++ ('\n' :: (Q ++ ('\n' :: (bspec.endTemplate ++ R))))))
      (toggleRegionFormatGlobally
        (P ++ (bspec.startTemplate ++ ('\n' :: (Q ++ ('\n' :: (bspec.endTemplate ++ R))))))
        ispec bspec
        [⟨P.length, P.length + bspec.startTemplate.length + 1 + Q.length + 1 +
          bspec.endTemplate.length⟩]).1 = P ++ (Q ++ R) := by
  have f1 : lineStartAt
      (P ++ (bspec.startTemplate ++ ('\n' :: (Q ++ ('\n' :: (bspec.endTemplate ++ R))))))
      P.length = P.length := by
    have h := lineStartAt_shift_k P bspec.startTemplate
      ('\n' :: (Q ++ ('\n' :: (bspec.endTemplate ++ R)))) hp 0 (by simp) (Nat.zero_le _)
    simpa using h
  have f2 : lineAt
      (P ++ (bspec.startTemplate ++ ('\n' :: (Q ++ ('\n' :: (bspec.endTemplate ++ R))))))
      P.length = bspec.startTemplate := by
    have h := lineAt_shift P bspec.startTemplate
      ('\n' :: (Q ++ ('\n' :: (bspec.endTemplate ++ R)))) hp hts (Or.inr rfl) 0
      (Nat.zero_le _)
    simpa using h
  have eT : ((P ++ (bspec.startTemplate ++ ('\n' :: Q))) ++ ['\n']) ++
      (bspec.endTemplate ++ R) =
      P ++ (bspec.startTemplate ++ ('\n' :: (Q ++ ('\n' :: (bspec.endTemplate ++ R))))) := by
    simp
  have epos : ((P ++ (bspec.startTemplate ++ ('\n' :: Q))) ++ ['\n']).length +
      bspec.endTemplate.length =
      P.length + bspec.startTemplate.length + 1 + Q.length + 1 +
        bspec.endTemplate.length := by
    simp only [List.length_append, List.length_cons, List.length_nil]
    omega
  have f3 : lineStartAt
      (P ++ (bspec.startTemplate ++ ('\n' :: (Q ++ ('\n' :: (bspec.endTemplate ++ R))))))
      (P.length + bspec.startTemplate.length + 1 + Q.length + 1 +
        bspec.endTemplate.length) =
      (P ++ (bspec.startTemplate ++ ('\n' :: Q))).length + 1 := by
    have h := lineStartAt_shift ((P ++ (bspec.startTemplate ++ ('\n' :: Q))) ++ ['\n'])
      bspec.endTemplate R (Or.inr (List.getLast?_concat _)) hte
    rw [eT, epos] at h
    rw [h]
    simp only [List.length_append, List.length_cons, List.length_nil]
  have f4 : lineAt
      (P ++ (bspec.startTemplate ++ ('\n' :: (Q ++ ('\n' :: (bspec.endTemplate ++ R))))))
      (P.length + bspec.startTemplate.length + 1 + Q.length + 1 +
        bspec.endTemplate.length) = bspec.endTemplate := by
    have h := lineAt_shift ((P ++ (bspec.startTemplate ++ ('\n' :: Q))) ++ ['\n'])
      bspec.endTemplate R (Or.inr (List.getLast?_concat _)) hte hq
      bspec.endTemplate.length (le_refl _)
    rw [eT, epos] at h
    exact h
  have f5 : lineEndAt
      (P ++ (bspec.startTemplate ++ ('\n' :: (Q ++ ('\n' :: (bspec.endTemplate ++ R))))))
      P.length = P.length + bspec.startTemplate.length :=
    lineEndAt_shift P bspec.startTemplate
      ('\n' :: (Q ++ ('\n' :: (bspec.endTemplate ++ R)))) hts (Or.inr rfl)
  have f6 : lineEndAt
      (P ++ (bspec.startTemplate ++ ('\n' :: (Q ++ ('\n' :: (bspec.endTemplate ++ R))))))
      (P.length + bspec.startTemplate.length + 1 + Q.length + 1 +
        bspec.endTemplate.length) =
      P.length + bspec.startTemplate.length + 1 + Q.length + 1 +
        bspec.endTemplate.length := by
    have h := lineEndAt_shift_k ((P ++ (bspec.startTemplate ++ ('\n' :: Q))) ++ ['\n'])
      bspec.endTemplate R hq bspec.endTemplate.length (by simp) (le_refl _)
    rw [eT, epos] at h
    exact h
  have hne : P.length ≠ (P ++ (bspec.startTemplate ++ ('\n' :: Q))).length + 1 := by
    simp only [List.length_append, List.length_cons]
    omega
  have f7 : blockWrapped
      (P ++ (bspec.startTemplate ++ ('\n' :: (Q ++ ('\n' :: (bspec.endTemplate ++ R))))))
      bspec
      ⟨P.length, P.length + bspec.startTemplate.length + 1 + Q.length + 1 +
        bspec.endTemplate.length⟩ = true := by
    simp only [blockWrapped, f1, f2, f3, f4, hfs, hfe, Bool.and_true]
    simp only [ne_eq, decide_eq_true_eq, List.length_append, List.length_cons]
    omega
  have hcond : P.length + bspec.startTemplate.length + 1 ≤
      (P ++ (bspec.startTemplate ++ ('\n' :: Q))).length + 1 - 1 := by
    simp only [List.length_append, List.length_cons]
    omega
  have ht2 : toggleRange
      (P ++ (bspec.startTemplate ++ ('\n' :: (Q ++ ('\n' :: (bspec.endTemplate ++ R))))))
      ispec bspec
      ⟨P.length, P.length + bspec.startTemplate.length + 1 + Q.length + 1 +
        bspec.endTemplate.length⟩ =
      ([⟨P.length, P.length + bspec.startTemplate.length + 1, []⟩,
        ⟨(P ++ (bspec.startTemplate ++ ('\n' :: Q))).length + 1 - 1,
         P.length + bspec.startTemplate.length + 1 + Q.length + 1 +
           bspec.endTemplate.length, []⟩],
       ⟨P.length, P.length + ((P ++ (bspec.startTemplate ++ ('\n' :: Q))).length + 1 - 1 -
         (P.length + bspec.startTemplate.length + 1))⟩) := by
    simp only [toggleRange, f7, if_true, f1, f3, f5, f6]
    rw [if_pos hcond]
  have hops2 : (toggleRegionFormatGlobally
      (P ++ (bspec.startTemplate ++ ('\n' :: (Q ++ ('\n' :: (bspec.endTemplate ++ R))))))
      ispec bspec
      [⟨P.length, P.length + bspec.startTemplate.length + 1 + Q.length + 1 +
        bspec.endTemplate.length⟩]).1 =
      [⟨P.length, P.length + bspec.startTemplate.length + 1, []⟩,
       ⟨(P ++ (bspec.startTemplate ++ ('\n' :: Q))).length + 1 - 1,
        P.length + bspec.startTemplate.length + 1 + Q.length + 1 +
          bspec.endTemplate.length, []⟩] := by
    simp only [toggleRegionFormatGlobally, List.map_cons, List.map_nil,
      List.flatMap_cons, List.flatMap_nil, ht2, List.append_nil]
  rw [hops2]
  have hdel := applyEdits_delete2 P (bspec.startTemplate ++ ['\n']) Q
    ('\n' :: bspec.endTemplate) R
  rw [show P ++ ((bspec.startTemplate ++ ['\n']) ++ (Q ++ (('\n' :: bspec.endTemplate) ++ R))) =
      P ++ (bspec.startTemplate ++ ('\n' :: (Q ++ ('\n' :: (bspec.endTemplate ++ R)))))
    by simp] at hdel
  rw [show P.length + (bspec.startTemplate ++ ['\n']).length =
      P.length + bspec.startTemplate.length + 1 by simp; omega] at hdel
  rw [show P.length + bspec.startTemplate.length + 1 + Q.length +
      ('\n' :: bspec.endTemplate).length =
      P.length + bspec.startTemplate.length + 1 + Q.length + 1 +
        bspec.endTemplate.length by simp; omega] at hdel
  rw [show (P ++ (bspec.startTemplate ++ ('\n' :: Q))).length + 1 - 1 =
      P.length + bspec.startTemplate.length + 1 + Q.length by
    simp only [List.length_append, List.length_cons]; omega]
  exact hdel

theorem involution_multiline_case (pre m1 m2 post : List Char) (i k : Nat)
    (ispec bspec : RegionSpec)
    (hpre : pre = [] ∨ pre.getLast? = some '\n')
    (hpost : post = [] ∨ post.head? = some '\n')
    (hi : i ≤ m1.length)
    (hm1 : ∀ c ∈ m1.take i, notNL c = true)
    (hk : k ≤ m2.length)
    (hm2 : ∀ c ∈ m2.drop k, notNL c = true)
    (hb : blockWrapped (pre ++ (m1 ++ ('\n' :: (m2 ++ post)))) bspec
      ⟨pre.length + i, pre.length + m1.length + 1 + k⟩ = false)
    (hiw : inlineWrapped (pre ++ (m1 ++ ('\n' :: (m2 ++ post)))) ispec
      ⟨pre.length + i, pre.length + m1.length + 1 + k⟩ = false)
    (hts : ∀ c ∈ bspec.startTemplate, notNL c = true)
    (hte : ∀ c ∈ bspec.endTemplate, notNL c = true)
    (hfs : lineMatches bspec.startMatcher bspec.startTemplate = true)
    (hfe : lineMatches bspec.endMatcher bspec.endTemplate = true) :
    applyEdits
        (applyEdits (pre ++ (m1 ++ ('\n' :: (m2 ++ post))))
          (toggleRegionFormatGlobally (pre ++ (m1 ++ ('\n' :: (m2 ++ post)))) ispec
            bspec [⟨pre.length + i, pre.length + m1.length + 1 + k⟩]).1)
        (toggleRegionFormatGlobally
          (applyEdits (pre ++ (m1 ++ ('\n' :: (m2 ++ post))))
            (toggleRegionFormatGlobally (pre ++ (m1 ++ ('\n' :: (m2 ++ post)))) ispec
              bspec [⟨pre.length + i, pre.length + m1.length + 1 + k⟩]).1)
          ispec bspec
          (toggleRegionFormatGlobally (pre ++ (m1 ++ ('\n' :: (m2 ++ post)))) ispec
            bspec [⟨pre.length + i, pre.length + m1.length + 1 + k⟩]).2).1 =
      pre ++ (m1 ++ ('\n' :: (m2 ++ post))) := by
  obtain ⟨hops1, hsel1, happ1⟩ := block_insert_parts pre m1 m2 post i k ispec bspec
    hpre hpost hi hm1 hk hm2 hb hiw
  rw [happ1, hsel1]
  have hrem := block_remove_parts pre (m1 ++ ('\n' :: m2)) post ispec bspec hpre hpost
    hts hte hfs hfe
  rw [show (m1 ++ ('\n' :: m2)) ++ ('\n' :: (bspec.endTemplate ++ post)) =
      m1 ++ ('\n' :: (m2 ++ ('\n' :: (bspec.endTemplate ++ post)))) by simp] at hrem
  rw [show pre.length + bspec.startTemplate.length + 1 + (m1 ++ ('\n' :: m2)).length + 1 +
      bspec.endTemplate.length =
      pre.length + m1.length + 1 + m2.length + bspec.startTemplate.length + 1 + 1 +
        bspec.endTemplate.length by
    simp only [List.length_append, List.length_cons]; omega] at hrem
  rw [show pre ++ ((m1 ++ ('\n' :: m2)) ++ post) = pre ++ (m1 ++ ('\n' :: (m2 ++ post)))
    by simp] at hrem
  exact hrem

/-- C3 (amended): toggling is an involution on the text for a single
selection range that is not already wrapped, provided the specs'
matchers recognize exactly the text their templates insert: for an
inline spec built by `RegionSpec.of D` the empty-cursor and
single-line insertions are undone byte-for-byte by the second toggle,
and for a multi-line selection the block fences inserted by the first
toggle (recognized as full lines by the block spec's own matchers) are
removed byte-for-byte by the second toggle.  The claim's original
universal form is refuted by `c3_counterexample`: a spec whose matcher
recognizes a delimiter other than its template breaks the involution,
because removal deletes the matched spans, not the inserted ones. -/
theorem c3_toggle_involution_amended :
    (∀ (pre post D : List Char) (bspec : RegionSpec),
      inlineWrapped (pre ++ post) (RegionSpec.of D) ⟨pre.length, pre.length⟩ = false →
      applyEdits
          (applyEdits (pre ++ post)
            (toggleRegionFormatGlobally (pre ++ post) (RegionSpec.of D) bspec
              [⟨pre.length, pre.length⟩]).1)
          (toggleRegionFormatGlobally
            (applyEdits (pre ++ post)
              (toggleRegionFormatGlobally (pre ++ post) (RegionSpec.of D) bspec
                [⟨pre.length, pre.length⟩]).1)
            (RegionSpec.of D) bspec
            (toggleRegionFormatGlobally (pre ++ post) (RegionSpec.of D) bspec
              [⟨pre.length, pre.length⟩]).2).1 = pre ++ post) ∧
    (∀ (pre S post D : List Char) (bspec : RegionSpec),
      (∀ c ∈ S, notNL c = true) →
      inlineWrapped (pre ++ (S ++ post)) (RegionSpec.of D)
        ⟨pre.length, pre.length + S.length⟩ = false →
      applyEdits
          (applyEdits (pre ++ (S ++ post))
            (toggleRegionFormatGlobally (pre ++ (S ++ post)) (RegionSpec.of D) bspec
              [⟨pre.length, pre.length + S.length⟩]).1)
          (toggleRegionFormatGlobally
            (applyEdits (pre ++ (S ++ post))
              (toggleRegionFormatGlobally (pre ++ (S ++ post)) (RegionSpec.of D) bspec
                [⟨pre.length, pre.length + S.length⟩]).1)
            (RegionSpec.of D) bspec
            (toggleRegionFormatGlobally (pre ++ (S ++ post)) (RegionSpec.of D) bspec
              [⟨pre.length, pre.length + S.length⟩]).2).1 = pre ++ (S ++ post)) ∧
    (∀ (pre m1 m2 post : List Char) (i k : Nat) (ispec bspec : RegionSpec),
      pre = [] ∨ pre.getLast? = some '\n' →
      post = [] ∨ post.head? = some '\n' →
      i ≤ m1.length →
      (∀ c ∈ m1.take i, notNL c = true) →
      k ≤ m2.length →
      (∀ c ∈ m2.drop k, notNL c = true) →
      blockWrapped (pre ++ (m1 ++ ('\n' :: (m2 ++ post)))) bspec
        ⟨pre.length + i, pre.length + m1.length + 1 + k⟩ = false →
      inlineWrapped (pre ++ (m1 ++ ('\n' :: (m2 ++ post)))) ispec
        ⟨pre.length + i, pre.length + m1.length + 1 + k⟩ = false →
      (∀ c ∈ bspec.startTemplate, notNL c = true) →
      (∀ c ∈ bspec.endTemplate, notNL c = true) →
      lineMatches bspec.startMatcher bspec.startTemplate = true →
      lineMatches bspec.endMatcher bspec.endTemplate = true →
      applyEdits
          (applyEdits (pre ++ (m1 ++ ('\n' :: (m2 ++ post))))
            (toggleRegionFormatGlobally (pre ++ (m1 ++ ('\n' :: (m2 ++ post)))) ispec
              bspec [⟨pre.length + i, pre.length + m1.length + 1 + k⟩]).1)
          (toggleRegionFormatGlobally
            (applyEdits (pre ++ (m1 ++ ('\n' :: (m2 ++ post))))
              (toggleRegionFormatGlobally (pre ++ (m1 ++ ('\n' :: (m2 ++ post)))) ispec
                bspec [⟨pre.length + i, pre.length + m1.length + 1 + k⟩]).1)
            ispec bspec
            (toggleRegionFormatGlobally (pre ++ (m1 ++ ('\n' :: (m2 ++ post)))) ispec
              bspec [⟨pre.length + i, pre.length + m1.length + 1 + k⟩]).2).1 =
        pre ++ (m1 ++ ('\n' :: (m2 ++ post)))) :=
  ⟨fun pre post D bspec hnw => involution_cursor_case pre post D bspec hnw,
   fun pre S post D bspec hSn hnw => involution_single_line_case pre S post D bspec hSn hnw,
   fun pre m1 m2 post i k ispec bspec hpre hpost hi hm1 hk hm2 hb hiw hts hte hfs hfe =>
     involution_multiline_case pre m1 m2 post i k ispec bspec hpre hpost hi hm1 hk hm2
       hb hiw hts hte hfs hfe⟩

theorem c3_witness :
    applyEdits
        (applyEdits ((("a").data) ++ (("b").data))
          (toggleRegionFormatGlobally ((("a").data) ++ (("b").data))
            (RegionSpec.of (("**").data)) blockCodeSpec
            [⟨(("a").data).length, (("a").data).length⟩]).1)
        (toggleRegionFormatGlobally
          (applyEdits ((("a").data) ++ (("b").data))
            (toggleRegionFormatGlobally ((("a").data) ++ (("b").data))
              (RegionSpec.of (("**").data)) blockCodeSpec
              [⟨(("a").data).length, (("a").data).length⟩]).1)
          (RegionSpec.of (("**").data)) blockCodeSpec
          (toggleRegionFormatGlobally ((("a").data) ++ (("b").data))
            (RegionSpec.of (("**").data)) blockCodeSpec
            [⟨(("a").data).length, (("a").data).length⟩]).2).1 =
      (("a").data) ++ (("b").data) :=
  c3_toggle_involution_amended.1 (("a").data) (("b").data) (("**").data) blockCodeSpec
    (by decide)

example :
    applyEdits (("2. a\n5. b").data)
      (renumberSelectedLists 4 (("2. a\n5. b").data) [⟨0, 9⟩]) =
      (("1. a\n2. b").data) := by decide

example :
    applyEdits (("1. This\n\t2. is\n\t3. a\n4. test\n\n## List 2\n\n1. Test\n\t2. 2\n\n# End").data)
      (renumberSelectedLists 4
        (("1. This\n\t2. is\n\t3. a\n4. test\n\n## List 2\n\n1. Test\n\t2. 2\n\n# End").data)
        [⟨10, 10⟩, ⟨15, 15⟩, ⟨53, 53⟩]) =
      (("1. This\n\t1. is\n\t2. a\n2. test\n\n## List 2\n\n1. Test\n\t1. 2\n\n# End").data) := by
  decide

-- ### Renumbering: structural ordinals (C1) and deduplication (C2)

theorem dropWhile_append_all {α : Type} {p : α → Bool} (l1 l2 : List α)
    (h : ∀ a ∈ l1, p a = true) :
    (l1 ++ l2).dropWhile p = l2.dropWhile p := by
  induction l1 with
  | nil => simp
  | cons a as ih =>
    simp only [List.cons_append, List.dropWhile_cons, h a (by simp), if_pos trivial,
      if_true]
    exact ih (fun b hb => h b (by simp [hb]))

theorem ordinalsAux_proj (w : Nat) : ∀ (ps1 ps2 : List (Option ListItem)),
    ps1.map (Option.map (fun it => indentWidth w it.indent)) =
      ps2.map (Option.map (fun it => indentWidth w it.indent)) →
    ∀ stack, ordinalsAux w ps1 stack = ordinalsAux w ps2 stack := by
  intro ps1
  induction ps1 with
  | nil =>
    intro ps2 h stack
    cases ps2 with
    | nil => rfl
    | cons b bs => simp at h
  | cons a as ih =>
    intro ps2 h stack
    cases ps2 with
    | nil => simp at h
    | cons b bs =>
      simp only [List.map_cons, List.cons.injEq] at h
      obtain ⟨hhead, htail⟩ := h
      cases a with
      | none =>
        cases b with
        | none => simp only [ordinalsAux]; rw [ih bs htail []]
        | some itb => simp at hhead
      | some ita =>
        cases b with
        | none => simp at hhead
        | some itb =>
          have hw : indentWidth w ita.indent = indentWidth w itb.indent := by
            simpa using hhead
          simp only [ordinalsAux, hw]
          rw [ih bs htail _]

/-- C1: renumbering is purely structural.  The recomputed ordinals
depend only on which lines are list items and on their indentation
widths — the original ordinal text is ignored; a counter opened on an
empty stack (top level) or by a deeper indentation (fresh nested list)
starts at 1; returning to a previously seen shallower indentation pops
the deeper levels and resumes that depth's counter.  In particular the
nested document `1. a / tab 3. x / tab 7. y / 2. b` renumbers, under
any selection intersecting the list, to `1. a / tab 1. x / tab 2. y /
2. b`. -/
theorem c1_structural_renumbering :
    (∀ (w : Nat) (ps1 ps2 : List (Option ListItem)),
      ps1.map (Option.map (fun it => indentWidth w it.indent)) =
        ps2.map (Option.map (fun it => indentWidth w it.indent)) →
      ∀ stack, ordinalsAux w ps1 stack = ordinalsAux w ps2 stack) ∧
    (∀ width : Nat, stackStep width [] = (1, [(width, 1)])) ∧
    (∀ (width tw c : Nat) (tl : List (Nat × Nat)), tw < width →
      stackStep width ((tw, c) :: tl) = (1, (width, 1) :: (tw, c) :: tl)) ∧
    (∀ (width c : Nat) (ds tl : List (Nat × Nat)), (∀ p ∈ ds, width < p.1) →
      stackStep width (ds ++ (width, c) :: tl) = (c + 1, (width, c + 1) :: tl)) ∧
    applyEdits (("1. a\n\t3. x\n\t7. y\n2. b").data)
        (renumberSelectedLists 4 (("1. a\n\t3. x\n\t7. y\n2. b").data) [⟨0, 0⟩]) =
      (("1. a\n\t1. x\n\t2. y\n2. b").data) := by
  refine ⟨ordinalsAux_proj, fun width => rfl, ?_, ?_, by decide⟩
  · intro width tw c tl hlt
    have hd : decide (width < tw) = false := by
      simp only [decide_eq_false_iff_not]
      omega
    have hne : ¬ (tw = width) := by omega
    simp [stackStep, List.dropWhile_cons, hd, hne]
  · intro width c ds tl hds
    have hdrop : ((ds ++ (width, c) :: tl).dropWhile
        (fun p => decide (width < p.1))) = (width, c) :: tl := by
      rw [dropWhile_append_all ds _ (fun a ha => by
        simp only [decide_eq_true_eq]
        exact hds a ha)]
      simp [List.dropWhile_cons]
    simp [stackStep, hdrop]

theorem c1_witness :
    stackStep 0 ([(4, 2)] ++ (0, 1) :: []) = (1 + 1, (0, 1 + 1) :: []) :=
  c1_structural_renumbering.2.2.2.1 0 1 [(4, 2)] [] (by decide)

/-- C2: several selection ranges resolving to the same list blocks
produce the same edit script as any other selection resolving to those
blocks — in particular, two cursors inside one list yield exactly the
single-cursor script, each distinct block being processed once (the
pass only tests block-start membership). -/
theorem c2_duplicate_selections_single_pass (w : Nat) (doc : List Char)
    (sels1 sels2 : List SelRange)
    (h1 : selectedStarts doc sels1 ⊆ selectedStarts doc sels2)
    (h2 : selectedStarts doc sels2 ⊆ selectedStarts doc sels1) :
    renumberSelectedLists w doc sels1 = renumberSelectedLists w doc sels2 := by
  have hf : renumberFlags doc sels1 = renumberFlags doc sels2 := by
    unfold renumberFlags
    apply List.map_congr_left
    intro idx _
    congr 1
    exact decide_eq_decide.mpr ⟨fun h => h1 h, fun h => h2 h⟩
  unfold renumberSelectedLists
  rw [hf]

theorem c2_witness :
    renumberSelectedLists 4 (("1. a\n2. b").data) [⟨0, 0⟩, ⟨5, 5⟩] =
      renumberSelectedLists 4 (("1. a\n2. b").data) [⟨0, 0⟩] :=
  c2_duplicate_selections_single_pass 4 (("1. a\n2. b").data) [⟨0, 0⟩, ⟨5, 5⟩]
    [⟨0, 0⟩] (by decide) (by decide)

-- ### Line splitting and joining

theorem splitLines_ne_nil (s : List Char) : splitLines s ≠ [] := by
  cases s with
  | nil => simp [splitLines]
  | cons c rest =>
    simp only [splitLines]
    split
    · simp
    · cases h : splitLines rest with
      | nil => simp
      | cons l ls => simp

theorem join_split (s : List Char) : joinLines (splitLines s) = s := by
  induction s with
  | nil => rfl
  | cons c rest ih =>
    simp only [splitLines]
    split
    · rename_i hc
      cases h : splitLines rest with
      | nil => exact absurd h (splitLines_ne_nil rest)
      | cons l ls =>
        rw [h] at ih
        subst hc
        simp only [joinLines, List.nil_append]
        rw [ih]
    · cases h : splitLines rest with
      | nil => exact absurd h (splitLines_ne_nil rest)
      | cons l ls =>
        rw [h] at ih
        cases ls with
        | nil =>
          simp only [joinLines] at ih ⊢
          rw [ih]
        | cons l2 ls2 =>
          simp only [joinLines, List.cons_append] at ih ⊢
          rw [ih]

theorem splitLines_no_nl (s : List Char) :
    ∀ l ∈ splitLines s, ∀ c ∈ l, notNL c = true := by
  induction s with
  | nil =>
    intro l hl c hc
    simp [splitLines] at hl
    subst hl
    simp at hc
  | cons a rest ih =>
    intro l hl c hc
    simp only [splitLines] at hl
    by_cases ha : a = '\n'
    · rw [if_pos ha] at hl
      rcases List.mem_cons.mp hl with h | h
      · subst h; simp at hc
      · exact ih l h c hc
    · rw [if_neg ha] at hl
      cases h : splitLines rest with
      | nil => exact absurd h (splitLines_ne_nil rest)
      | cons l0 ls =>
        rw [h] at hl
        rcases List.mem_cons.mp hl with h2 | h2
        · subst h2
          rcases List.mem_cons.mp hc with h3 | h3
          · subst h3
            simp [notNL, ha]
          · exact ih l0 (by rw [h]; exact List.mem_cons_self l0 ls) c h3
        · exact ih l (by rw [h]; exact List.mem_cons_of_mem l0 h2) c hc

theorem splitLines_single (l : List Char) (h : ∀ c ∈ l, notNL c = true) :
    splitLines l = [l] := by
  induction l with
  | nil => rfl
  | cons c rest ih =>
    have hc : ¬ (c = '\n') := by
      have := h c (by simp)
      simpa [notNL] using this
    simp only [splitLines, if_neg hc]
    rw [ih (fun d hd => h d (by simp [hd]))]

theorem splitLines_append_newline (l X : List Char) (h : ∀ c ∈ l, notNL c = true) :
    splitLines (l ++ '\n' :: X) = l :: splitLines X := by
  induction l with
  | nil => simp [splitLines]
  | cons c rest ih =>
    have hc : ¬ (c = '\n') := by
      have := h c (by simp)
      simpa [notNL] using this
    simp only [List.cons_append, splitLines, if_neg hc, List.append_eq]
    rw [ih (fun d hd => h d (by simp [hd]))]

theorem split_join (Ls : List Line) (hne : Ls ≠ [])
    (h : ∀ l ∈ Ls, ∀ c ∈ l, notNL c = true) :
    splitLines (joinLines Ls) = Ls := by
  induction Ls with
  | nil => exact absurd rfl hne
  | cons l rest ih =>
    cases rest with
    | nil =>
      simp only [joinLines]
      exact splitLines_single l (h l (by simp))
    | cons l2 rest2 =>
      simp only [joinLines]
      rw [splitLines_append_newline _ _ (h l (by simp))]
      rw [ih (by simp) (fun m hm c hc => h m (by simp [hm]) c hc)]

-- ### Parsing facts for list-item lines

theorem takeWhile_drop_split (l : List Char) (p : Char → Bool) :
    l = l.takeWhile p ++ l.drop (l.takeWhile p).length := by
  induction l with
  | nil => rfl
  | cons c rest ih =>
    cases hp : p c with
    | true =>
      simp only [List.takeWhile_cons, hp, if_pos trivial, if_true, List.length_cons,
        List.drop_succ_cons, List.cons_append]
      exact congrArg (c :: ·) ih
    | false =>
      simp [List.takeWhile_cons, hp]

theorem parse_shape (l : Line) (it : ListItem) (h : parseListItem l = some it) :
    l = it.indent ++ (it.digits ++ it.rest) ∧
    (∀ c ∈ it.indent, isSpaceOrTab c = true) ∧
    it.digits ≠ [] ∧
    (∀ c ∈ it.digits, c.isDigit = true) ∧
    it.rest.head? = some '.' := by
  simp only [parseListItem] at h
  split at h
  · rename_i hcond
    obtain ⟨hds, hdot⟩ := hcond
    injection h with h
    subst h
    refine ⟨?_, ?_, hds, ?_, hdot⟩
    · conv_lhs => rw [takeWhile_drop_split l isSpaceOrTab]
      congr 1
      exact takeWhile_drop_split _ Char.isDigit
    · intro c hc
      exact List.mem_takeWhile_imp hc
    · intro c hc
      exact List.mem_takeWhile_imp hc
  · cases h

theorem natDigits_digits (n : Nat) : ∀ c ∈ natDigits n, c.isDigit = true := by
  have haux : ∀ (fuel m : Nat), ∀ c ∈ natDigitsAux fuel m, c.isDigit = true := by
    intro fuel
    induction fuel with
    | zero => intro m c hc; simp [natDigitsAux] at hc
    | succ f ih =>
      intro m c hc
      cases m with
      | zero => simp [natDigitsAux] at hc
      | succ q =>
        simp only [natDigitsAux, List.mem_append, List.mem_singleton] at hc
        rcases hc with hc | hc
        · exact ih _ c hc
        · subst hc
          have h10 : (q + 1) % 10 < 10 := Nat.mod_lt _ (by omega)
          set d := (q + 1) % 10 with hd
          interval_cases d <;> decide
  intro c hc
  unfold natDigits at hc
  split at hc
  · simp at hc
    subst hc
    decide
  · exact haux _ _ c hc

theorem natDigits_ne_nil (n : Nat) : natDigits n ≠ [] := by
  unfold natDigits
  split
  · simp
  · rename_i hn
    cases n with
    | zero => exact absurd rfl hn
    | succ m => simp [natDigitsAux]

theorem isDigit_not_spaceTab (c : Char) (h : c.isDigit = true) :
    isSpaceOrTab c = false := by
  cases hst : isSpaceOrTab c
  · rfl
  · exfalso
    unfold isSpaceOrTab at hst
    rcases of_decide_eq_true hst with rfl | rfl
    · exact absurd h (by decide)
    · exact absurd h (by decide)

theorem isDigit_notNL (c : Char) (h : c.isDigit = true) : notNL c = true := by
  unfold notNL
  refine decide_eq_true ?_
  intro hc
  subst hc
  exact absurd h (by decide)

theorem parse_rebuilt (l : Line) (it : ListItem) (n : Nat)
    (h : parseListItem l = some it) :
    parseListItem (it.indent ++ (natDigits n ++ it.rest)) =
      some ⟨it.indent, natDigits n, it.rest⟩ := by
  obtain ⟨hshape, hind, hds, hdig, hdot⟩ := parse_shape l it h
  have hnd_ne := natDigits_ne_nil n
  have hnd_dig := natDigits_digits n
  obtain ⟨d0, nd', hnd0⟩ : ∃ d0 nd', natDigits n = d0 :: nd' := by
    cases hND : natDigits n with
    | nil => exact absurd hND hnd_ne
    | cons a b => exact ⟨a, b, rfl⟩
  have h1 : (it.indent ++ (natDigits n ++ it.rest)).takeWhile isSpaceOrTab =
      it.indent := by
    rw [takeWhile_append_all _ _ hind, hnd0, List.cons_append, List.takeWhile_cons]
    have : isSpaceOrTab d0 = false :=
      isDigit_not_spaceTab d0 (hnd_dig d0 (by rw [hnd0]; simp))
    rw [this]
    simp
  have h3 : (natDigits n ++ it.rest).takeWhile Char.isDigit = natDigits n := by
    rw [takeWhile_append_all _ _ hnd_dig]
    cases hr : it.rest with
    | nil => simp
    | cons r0 rs =>
      rw [hr] at hdot
      simp only [List.head?_cons, Option.some.injEq] at hdot
      subst hdot
      have : Char.isDigit '.' = false := by decide
      simp [List.takeWhile_cons, this]
  simp only [parseListItem, h1, List.drop_left, h3]
  rw [if_pos ⟨hnd_ne, hdot⟩]

theorem planAux_mem_parse (w : Nat) : ∀ (ls : List Line) (flags : List Bool)
    (stack : List (Nat × Nat)) (l : Line) (it : ListItem) (n : Nat),
    (l, some (it, n)) ∈ planAux w ls flags stack → parseListItem l = some it := by
  intro ls
  induction ls with
  | nil => intro _ _ _ _ _ h; simp [planAux] at h
  | cons a as ih =>
    intro flags stack l it n h
    simp only [planAux] at h
    cases hp : parseListItem a with
    | none =>
      rw [hp] at h
      rcases List.mem_cons.mp h with h2 | h2
      · simp at h2
      · exact ih _ _ _ _ _ h2
    | some ita =>
      rw [hp] at h
      rcases List.mem_cons.mp h with h2 | h2
      · by_cases hf : flags.headD false = true
        · rw [if_pos hf] at h2
          simp only [Prod.mk.injEq, Option.some.injEq] at h2
          obtain ⟨hla, hit, _⟩ := h2
          subst hla
          rw [hp, hit]
        · rw [if_neg hf] at h2
          simp at h2
      · exact ih _ _ _ _ _ h2

-- ### The edit script computes the line-wise renumbering

theorem planAux_fst (w : Nat) : ∀ (ls : List Line) (flags : List Bool)
    (stack : List (Nat × Nat)), (planAux w ls flags stack).map Prod.fst = ls := by
  intro ls
  induction ls with
  | nil => intro _ _; rfl
  | cons l lsr ih =>
    intro flags stack
    cases hp : parseListItem l with
    | none => simp [planAux, hp, ih]
    | some it => simp [planAux, hp, ih]

theorem planLines_cons_shape (p2 : Line × Option (ListItem × Nat))
    (rest2 : List (Line × Option (ListItem × Nat))) :
    ∃ q qs, planLines (p2 :: rest2) = q :: qs := by
  obtain ⟨l2, plan2⟩ := p2
  cases plan2 with
  | none => exact ⟨_, _, rfl⟩
  | some pr =>
    obtain ⟨it2, n2⟩ := pr
    exact ⟨_, _, rfl⟩

theorem bridge_lemma : ∀ (pairs : List (Line × Option (ListItem × Nat)))
    (base : Nat) (stuff : List Char),
    (∀ l it n, (l, some (it, n)) ∈ pairs → l = it.indent ++ (it.digits ++ it.rest)) →
    applyEditsFrom base (stuff ++ joinLines (pairs.map Prod.fst))
      (planOps (base + stuff.length) pairs) =
    stuff ++ joinLines (planLines pairs) := by
  intro pairs
  induction pairs with
  | nil =>
    intro base stuff hwf
    simp [planOps, applyEditsFrom, joinLines, planLines]
  | cons pair rest ih =>
    intro base stuff hwf
    obtain ⟨l, plan⟩ := pair
    cases plan with
    | none =>
      cases rest with
      | nil =>
        simp [planOps, planLines, joinLines, applyEditsFrom]
      | cons p2 rest2 =>
        obtain ⟨q, qs, hq⟩ := planLines_cons_shape p2 rest2
        have ih2 := ih base (stuff ++ (l ++ ['\n']))
          (fun l' it' n' hm => hwf l' it' n' (List.mem_cons_of_mem _ hm))
        rw [show (stuff ++ (l ++ ['\n'])) ++ joinLines ((p2 :: rest2).map Prod.fst) =
            stuff ++ (l ++ '\n' :: joinLines ((p2 :: rest2).map Prod.fst)) by
          simp] at ih2
        rw [show base + (stuff ++ (l ++ ['\n'])).length =
            base + stuff.length + l.length + 1 by
          simp only [List.length_append, List.length_cons, List.length_nil]
          omega] at ih2
        rw [show (stuff ++ (l ++ ['\n'])) ++ joinLines (planLines (p2 :: rest2)) =
            stuff ++ (l ++ '\n' :: joinLines (planLines (p2 :: rest2))) by
          simp] at ih2
        simp only [planOps, planLines, List.map_cons]
        simp only [List.map_cons] at ih2
        rw [hq] at ih2 ⊢
        simp only [joinLines]
        exact ih2
    | some pr =>
      obtain ⟨it, n⟩ := pr
      have hl : l = it.indent ++ (it.digits ++ it.rest) :=
        hwf l it n (List.mem_cons_self _ _)
      cases rest with
      | nil =>
        simp only [planOps, planLines, List.map_cons, List.map_nil, joinLines,
          applyEditsFrom]
        rw [hl]
        rw [show base + stuff.length + it.indent.length - base =
            stuff.length + it.indent.length by omega]
        rw [show base + stuff.length + it.indent.length + it.digits.length - base =
            stuff.length + it.indent.length + it.digits.length by omega]
        have ht : (stuff ++ (it.indent ++ (it.digits ++ it.rest))).take
            (stuff.length + it.indent.length) = stuff ++ it.indent := by
          rw [show stuff ++ (it.indent ++ (it.digits ++ it.rest)) =
              (stuff ++ it.indent) ++ (it.digits ++ it.rest) by simp]
          exact List.take_left' (by simp)
        have hd : (stuff ++ (it.indent ++ (it.digits ++ it.rest))).drop
            (stuff.length + it.indent.length + it.digits.length) = it.rest := by
          rw [show stuff ++ (it.indent ++ (it.digits ++ it.rest)) =
              ((stuff ++ it.indent) ++ it.digits) ++ it.rest by simp]
          exact List.drop_left' (by simp [Nat.add_assoc])
        rw [ht, hd]
        simp
      | cons p2 rest2 =>
        obtain ⟨q, qs, hq⟩ := planLines_cons_shape p2 rest2
        have ih2 := ih (base + stuff.length + it.indent.length + it.digits.length)
          (it.rest ++ ['\n'])
          (fun l' it' n' hm => hwf l' it' n' (List.mem_cons_of_mem _ hm))
        rw [show base + stuff.length + it.indent.length + it.digits.length +
            (it.rest ++ ['\n']).length = base + stuff.length + l.length + 1 by
          rw [hl]
          simp only [List.length_append, List.length_cons, List.length_nil]
          omega] at ih2
        rw [show (it.rest ++ ['\n']) ++ joinLines ((p2 :: rest2).map Prod.fst) =
            it.rest ++ '\n' :: joinLines ((p2 :: rest2).map Prod.fst) by simp] at ih2
        rw [show (it.rest ++ ['\n']) ++ joinLines (planLines (p2 :: rest2)) =
            it.rest ++ '\n' :: joinLines (planLines (p2 :: rest2)) by simp] at ih2
        simp only [planOps, planLines, List.map_cons]
        simp only [List.map_cons] at ih2
        rw [hq] at ih2 ⊢
        simp only [joinLines, applyEditsFrom]
        rw [show base + stuff.length + it.indent.length - base =
            stuff.length + it.indent.length by omega]
        rw [show base + stuff.length + it.indent.length + it.digits.length - base =
            stuff.length + it.indent.length + it.digits.length by omega]
        rw [hl]
        have ht : (stuff ++ ((it.indent ++ (it.digits ++ it.rest)) ++ '\n' ::
            joinLines (Prod.fst p2 :: rest2.map Prod.fst))).take
            (stuff.length + it.indent.length) = stuff ++ it.indent := by
          rw [show stuff ++ ((it.indent ++ (it.digits ++ it.rest)) ++ '\n' ::
              joinLines (Prod.fst p2 :: rest2.map Prod.fst)) =
              (stuff ++ it.indent) ++ (it.digits ++ (it.rest ++ '\n' ::
                joinLines (Prod.fst p2 :: rest2.map Prod.fst))) by simp]
          exact List.take_left' (by simp)
        have hd : (stuff ++ ((it.indent ++ (it.digits ++ it.rest)) ++ '\n' ::
            joinLines (Prod.fst p2 :: rest2.map Prod.fst))).drop
            (stuff.length + it.indent.length + it.digits.length) =
            it.rest ++ '\n' :: joinLines (Prod.fst p2 :: rest2.map Prod.fst) := by
          rw [show stuff ++ ((it.indent ++ (it.digits ++ it.rest)) ++ '\n' ::
              joinLines (Prod.fst p2 :: rest2.map Prod.fst)) =
              ((stuff ++ it.indent) ++ it.digits) ++ (it.rest ++ '\n' ::
                joinLines (Prod.fst p2 :: rest2.map Prod.fst)) by simp]
          exact List.drop_left' (by simp [Nat.add_assoc])
        rw [hl] at ih2
        rw [ht, hd, ih2]
        simp

theorem renumber_apply_bridge (w : Nat) (doc : List Char) (sels : List SelRange) :
    applyEdits doc (renumberSelectedLists w doc sels) = renumberApplied w doc sels := by
  have hwf : ∀ l it n, (l, some (it, n)) ∈
      planAux w (splitLines doc) (renumberFlags doc sels) [] →
      l = it.indent ++ (it.digits ++ it.rest) := by
    intro l it n hm
    exact (parse_shape l it (planAux_mem_parse w _ _ _ _ _ _ hm)).1
  have hb := bridge_lemma (planAux w (splitLines doc) (renumberFlags doc sels) []) 0 []
    hwf
  simp only [List.nil_append, Nat.add_zero, List.length_nil] at hb
  rw [planAux_fst, join_split] at hb
  unfold renumberSelectedLists renumberApplied applyEdits
  exact hb

theorem getD_tail_bool (flags : List Bool) (j : Nat) :
    flags.tail.getD j false = flags.getD (j + 1) false := by
  cases flags with
  | nil => rfl
  | cons a t => rfl

theorem headD_eq_getD_zero (flags : List Bool) :
    flags.headD false = flags.getD 0 false := by
  cases flags with
  | nil => rfl
  | cons a t => rfl

theorem planAux_char (w : Nat) : ∀ (ls : List Line) (flags : List Bool)
    (stack : List (Nat × Nat)) (idx : Nat),
    ((parseListItem (ls.getD idx []) = none ∨ flags.getD idx false = false) →
      (planLines (planAux w ls flags stack)).getD idx [] = ls.getD idx []) ∧
    (∀ it, parseListItem (ls.getD idx []) = some it → flags.getD idx false = true →
      (planLines (planAux w ls flags stack)).getD idx [] =
        it.indent ++
          (natDigits (((ordinalsAux w (ls.map parseListItem) stack).getD idx
            none).getD 0) ++ it.rest)) := by
  intro ls
  induction ls with
  | nil =>
    intro flags stack idx
    constructor
    · intro _
      simp [planAux, planLines]
    · intro it hparse _
      simp only [List.getD_nil] at hparse
      rw [show parseListItem ([] : Line) = none from rfl] at hparse
      cases hparse
  | cons l lsr ih =>
    intro flags stack idx
    cases hp : parseListItem l with
    | none =>
      cases idx with
      | zero =>
        constructor
        · intro _
          simp [planAux, hp, planLines]
        · intro it hparse _
          rw [List.getD_cons_zero] at hparse
          rw [hp] at hparse
          cases hparse
      | succ j =>
        have ihj := ih flags.tail [] j
        constructor
        · intro hcase
          simp only [planAux, hp, planLines, List.getD_cons_succ]
          refine (ihj.1 ?_)
          rcases hcase with hc | hc
          · left
            rw [List.getD_cons_succ] at hc
            exact hc
          · right
            rw [← getD_tail_bool] at hc
            exact hc
        · intro it hparse hflag
          rw [List.getD_cons_succ] at hparse
          rw [← getD_tail_bool] at hflag
          have h2 := ihj.2 it hparse hflag
          simp only [planAux, hp, planLines, List.getD_cons_succ, List.map_cons,
            ordinalsAux]
          exact h2
    | some it0 =>
      cases idx with
      | zero =>
        constructor
        · intro hcase
          have hflag : flags.getD 0 false = false := by
            rcases hcase with hc | hc
            · rw [List.getD_cons_zero, hp] at hc
              cases hc
            · exact hc
          simp only [planAux, hp, planLines, headD_eq_getD_zero, hflag,
            Bool.false_eq_true, if_false, List.getD_cons_zero]
        · intro it hparse hflag
          rw [List.getD_cons_zero, hp] at hparse
          injection hparse with hparse
          subst hparse
          simp only [planAux, hp, planLines, headD_eq_getD_zero, hflag, if_pos,
            if_true, List.getD_cons_zero, List.map_cons, ordinalsAux,
            Option.getD_some]
      | succ j =>
        have ihj := ih flags.tail (stackStep (indentWidth w it0.indent) stack).2 j
        constructor
        · intro hcase
          have hres : (planLines (planAux w lsr flags.tail
              (stackStep (indentWidth w it0.indent) stack).2)).getD j [] =
              lsr.getD j [] := by
            refine ihj.1 ?_
            rcases hcase with hc | hc
            · left
              rw [List.getD_cons_succ] at hc
              exact hc
            · right
              rw [← getD_tail_bool] at hc
              exact hc
          by_cases hf : flags.headD false = true
          · simp only [planAux, hp, planLines, hf, if_pos, if_true,
              List.getD_cons_succ]
            exact hres
          · have hf2 : flags.headD false = false := by
              cases hof : flags.headD false
              · rfl
              · exact absurd hof hf
            simp only [planAux, hp, planLines, hf2, Bool.false_eq_true, if_false,
              List.getD_cons_succ]
            exact hres
        · intro it hparse hflag
          rw [List.getD_cons_succ] at hparse
          rw [← getD_tail_bool] at hflag
          have h2 := ihj.2 it hparse hflag
          by_cases hf : flags.headD false = true
          · simp only [planAux, hp, planLines, hf, if_pos, if_true,
              List.getD_cons_succ, List.map_cons, ordinalsAux]
            exact h2
          · have hf2 : flags.headD false = false := by
              cases hof : flags.headD false
              · rfl
              · exact absurd hof hf
            simp only [planAux, hp, planLines, hf2, Bool.false_eq_true, if_false,
              List.getD_cons_succ, List.map_cons, ordinalsAux]
            exact h2

theorem planAux_length (w : Nat) : ∀ (ls : List Line) (flags : List Bool)
    (stack : List (Nat × Nat)), (planAux w ls flags stack).length = ls.length := by
  intro ls
  induction ls with
  | nil => intro _ _; rfl
  | cons l lsr ih =>
    intro flags stack
    cases hp : parseListItem l with
    | none => simp [planAux, hp, ih]
    | some it => simp [planAux, hp, ih]

theorem planLines_length : ∀ pairs : List (Line × Option (ListItem × Nat)),
    (planLines pairs).length = pairs.length := by
  intro pairs
  induction pairs with
  | nil => rfl
  | cons pair rest ih =>
    obtain ⟨l, plan⟩ := pair
    cases plan with
    | none => simp [planLines, ih]
    | some pr =>
      obtain ⟨it, n⟩ := pr
      simp [planLines, ih]

theorem planLines_no_nl (w : Nat) : ∀ (ls : List Line) (flags : List Bool)
    (stack : List (Nat × Nat)),
    (∀ l ∈ ls, ∀ c ∈ l, notNL c = true) →
    ∀ l2 ∈ planLines (planAux w ls flags stack), ∀ c ∈ l2, notNL c = true := by
  intro ls
  induction ls with
  | nil => intro _ _ _ l2 h2; simp [planAux, planLines] at h2
  | cons l lsr ih =>
    intro flags stack hls l2 h2
    have hl := hls l (by simp)
    have hrest : ∀ m ∈ lsr, ∀ c ∈ m, notNL c = true :=
      fun m hm => hls m (by simp [hm])
    cases hp : parseListItem l with
    | none =>
      simp only [planAux, hp, planLines, List.mem_cons] at h2
      rcases h2 with h2 | h2
      · subst h2; exact hl
      · exact ih _ _ hrest l2 h2
    | some it =>
      simp only [planAux, hp] at h2
      by_cases hf : flags.headD false = true
      · rw [if_pos hf] at h2
        simp only [planLines, List.mem_cons] at h2
        rcases h2 with h2 | h2
        · subst h2
          intro c hc
          obtain ⟨hshape, _, _, _, _⟩ := parse_shape l it hp
          simp only [List.mem_append] at hc
          rcases hc with hc | hc | hc
          · exact hl c (by rw [hshape]; simp [hc])
          · exact isDigit_notNL c (natDigits_digits _ c hc)
          · exact hl c (by rw [hshape]; simp [hc])
        · exact ih _ _ hrest l2 h2
      · rw [if_neg hf] at h2
        simp only [planLines, List.mem_cons] at h2
        rcases h2 with h2 | h2
        · subst h2; exact hl
        · exact ih _ _ hrest l2 h2

theorem renumberFlags_getD (doc : List Char) (sels : List SelRange) (idx : Nat) :
    (renumberFlags doc sels).getD idx false =
      (decide (idx < (splitLines doc).length) &&
        (isListLine ((splitLines doc).getD idx []) &&
          decide (blockStartIdx ((splitLines doc).map isListLine) idx ∈
            selectedStarts doc sels))) := by
  unfold renumberFlags
  by_cases h : idx < (splitLines doc).length
  · have hlen : idx < ((List.range (splitLines doc).length).map (fun idx =>
        isListLine ((splitLines doc).getD idx []) &&
          decide (blockStartIdx ((splitLines doc).map isListLine) idx ∈
            selectedStarts doc sels))).length := by
      simp [List.length_map, List.length_range]
      exact h
    rw [List.getD_eq_getElem _ _ hlen]
    rw [List.getElem_map, List.getElem_range]
    simp [h]
  · have hlen : ((List.range (splitLines doc).length).map (fun idx =>
        isListLine ((splitLines doc).getD idx []) &&
          decide (blockStartIdx ((splitLines doc).map isListLine) idx ∈
            selectedStarts doc sels))).length ≤ idx := by
      simp only [List.length_map, List.length_range]
      omega
    rw [List.getD_eq_default _ _ hlen]
    simp [h]

theorem flag_true_parts (doc : List Char) (sels : List SelRange) (idx : Nat)
    (h : (renumberFlags doc sels).getD idx false = true) :
    idx < (splitLines doc).length ∧
    isListLine ((splitLines doc).getD idx []) = true ∧
    blockStartIdx ((splitLines doc).map isListLine) idx ∈ selectedStarts doc sels := by
  rw [renumberFlags_getD] at h
  simp only [Bool.and_eq_true, decide_eq_true_eq] at h
  exact ⟨h.1, h.2.1, h.2.2⟩

theorem splitLines_applied (w : Nat) (doc : List Char) (sels : List SelRange) :
    splitLines (applyEdits doc (renumberSelectedLists w doc sels)) =
      planLines (planAux w (splitLines doc) (renumberFlags doc sels) []) := by
  rw [renumber_apply_bridge]
  unfold renumberApplied
  apply split_join
  · apply List.ne_nil_of_length_pos
    rw [planLines_length, planAux_length]
    cases hs : splitLines doc with
    | nil => exact absurd hs (splitLines_ne_nil doc)
    | cons a b => simp
  · exact planLines_no_nl w _ _ _ (splitLines_no_nl doc)

/-- C9: the renumbering edit script leaves every line that is not an
ordered-list line of a selected block byte-for-byte unchanged — blank
lines, headings, and list lines outside every selected block included
— even when textually adjacent to a renumbered block, and on a
renumbered line it rewrites only the ordinal digits, keeping the
indentation and the delimiter-plus-content tail untouched. -/
theorem c9_frame_effect (w : Nat) (doc : List Char) (sels : List SelRange) :
    (splitLines (applyEdits doc (renumberSelectedLists w doc sels))).length =
      (splitLines doc).length ∧
    ∀ idx : Nat,
      ((isListLine ((splitLines doc).getD idx []) = false ∨
          (renumberFlags doc sels).getD idx false = false) →
        (splitLines (applyEdits doc (renumberSelectedLists w doc sels))).getD idx [] =
          (splitLines doc).getD idx []) ∧
      (∀ it : ListItem, parseListItem ((splitLines doc).getD idx []) = some it →
        (renumberFlags doc sels).getD idx false = true →
        ∃ n : Nat,
          (splitLines (applyEdits doc (renumberSelectedLists w doc sels))).getD idx
            [] = it.indent ++ (natDigits n ++ it.rest)) := by
  have hsplit := splitLines_applied w doc sels
  refine ⟨?_, ?_⟩
  · rw [hsplit, planLines_length, planAux_length]
  · intro idx
    constructor
    · intro hcase
      rw [hsplit]
      refine (planAux_char w (splitLines doc) (renumberFlags doc sels) [] idx).1 ?_
      rcases hcase with hc | hc
      · left
        unfold isListLine at hc
        cases hpp : parseListItem ((splitLines doc).getD idx []) with
        | none => rfl
        | some _ =>
          rw [hpp] at hc
          simp at hc
      · right
        exact hc
    · intro it hparse hflag
      rw [hsplit]
      exact ⟨_, (planAux_char w (splitLines doc) (renumberFlags doc sels) [] idx).2 it
        hparse hflag⟩

theorem c9_witness :
    (splitLines (applyEdits (("# t\n1. a\n\nx").data)
        (renumberSelectedLists 4 (("# t\n1. a\n\nx").data) [⟨5, 5⟩]))).getD 0 [] =
      (splitLines (("# t\n1. a\n\nx").data)).getD 0 [] :=
  ((c9_frame_effect 4 (("# t\n1. a\n\nx").data) [⟨5, 5⟩]).2 0).1 (Or.inl (by decide))

theorem blockStartIdx_congr (isL1 isL2 : List Bool)
    (h : ∀ j, isL1.getD j false = isL2.getD j false) :
    ∀ i, blockStartIdx isL1 i = blockStartIdx isL2 i := by
  intro i
  induction i with
  | zero => rfl
  | succ j ih => simp only [blockStartIdx, h j, ih]

theorem getD_map_isListLine (X : List Line) (j : Nat) :
    (X.map isListLine).getD j false = isListLine (X.getD j []) := by
  have h : (X.map isListLine).getD j (isListLine []) = isListLine (X.getD j []) :=
    List.getD_map ..
  rw [show isListLine [] = false from rfl] at h
  exact h

theorem pass1_line_isList (w : Nat) (doc : List Char) (sels : List SelRange) (j : Nat) :
    isListLine ((planLines (planAux w (splitLines doc)
        (renumberFlags doc sels) [])).getD j []) =
      isListLine ((splitLines doc).getD j []) := by
  have char1 := planAux_char w (splitLines doc) (renumberFlags doc sels) [] j
  by_cases hflag : (renumberFlags doc sels).getD j false = true
  · obtain ⟨hlen, hlist, _⟩ := flag_true_parts doc sels j hflag
    obtain ⟨it, hit⟩ := Option.isSome_iff_exists.mp hlist
    rw [char1.2 it hit hflag]
    unfold isListLine
    rw [parse_rebuilt _ it _ hit, hit]
    rfl
  · simp only [Bool.not_eq_true] at hflag
    rw [char1.1 (Or.inr hflag)]

/-- C10: renumbering is idempotent — after applying the edit script of
`renumberSelectedLists`, running it again on the resulting document
with any selection that (like the mapped original selection) touches
only blocks that were already renumbered yields an edit script whose
application leaves the text unchanged, because the recomputed ordinals
of those blocks already equal their current text. -/
theorem c10_renumber_idempotent (w : Nat) (doc : List Char) (sels sels' : List SelRange)
    (hsub : selectedStarts (applyEdits doc (renumberSelectedLists w doc sels)) sels' ⊆
      selectedStarts doc sels) :
    applyEdits (applyEdits doc (renumberSelectedLists w doc sels))
      (renumberSelectedLists w (applyEdits doc (renumberSelectedLists w doc sels))
        sels') =
    applyEdits doc (renumberSelectedLists w doc sels) := by
  have hsplit := splitLines_applied w doc sels
  rw [renumber_apply_bridge w (applyEdits doc (renumberSelectedLists w doc sels)) sels']
  unfold renumberApplied
  have hlenL : (planLines (planAux w (splitLines doc)
      (renumberFlags doc sels) [])).length = (splitLines doc).length := by
    rw [planLines_length, planAux_length]
  have hisL : ∀ j, isListLine ((splitLines (applyEdits doc
      (renumberSelectedLists w doc sels))).getD j []) =
      isListLine ((splitLines doc).getD j []) := by
    intro j
    rw [hsplit]
    exact pass1_line_isList w doc sels j
  have hlen1 : (splitLines (applyEdits doc (renumberSelectedLists w doc sels))).length =
      (splitLines doc).length := by
    rw [hsplit]
    exact hlenL
  have hprojeq : ((splitLines (applyEdits doc
      (renumberSelectedLists w doc sels))).map parseListItem).map
        (Option.map (fun it => indentWidth w it.indent)) =
      ((splitLines doc).map parseListItem).map
        (Option.map (fun it => indentWidth w it.indent)) := by
    apply List.ext_getElem
    · simp only [List.length_map]
      exact hlen1
    · intro i h1 h2
      simp only [List.getElem_map]
      have hchar := planAux_char w (splitLines doc) (renumberFlags doc sels) [] i
      have h1b : i < (splitLines (applyEdits doc
          (renumberSelectedLists w doc sels))).length := by
        simpa using h1
      have h2b : i < (splitLines doc).length := by
        simpa using h2
      rw [← List.getD_eq_getElem (splitLines (applyEdits doc
        (renumberSelectedLists w doc sels))) [] h1b,
        ← List.getD_eq_getElem (splitLines doc) [] h2b]
      by_cases hflag : (renumberFlags doc sels).getD i false = true
      · obtain ⟨hlen, hlist, _⟩ := flag_true_parts doc sels i hflag
        obtain ⟨it, hit⟩ := Option.isSome_iff_exists.mp hlist
        rw [hsplit, hchar.2 it hit hflag, parse_rebuilt _ it _ hit, hit]
        rfl
      · simp only [Bool.not_eq_true] at hflag
        rw [hsplit, hchar.1 (Or.inr hflag)]
  have hords : ordinalsAux w ((splitLines (applyEdits doc
      (renumberSelectedLists w doc sels))).map parseListItem) [] =
      ordinalsAux w ((splitLines doc).map parseListItem) [] :=
    ordinalsAux_proj w _ _ hprojeq []
  have hmain : planLines (planAux w (splitLines (applyEdits doc
      (renumberSelectedLists w doc sels)))
      (renumberFlags (applyEdits doc (renumberSelectedLists w doc sels)) sels') []) =
      splitLines (applyEdits doc (renumberSelectedLists w doc sels)) := by
    apply List.ext_getElem
    · rw [planLines_length, planAux_length]
    · intro i h1 h2
      rw [← List.getD_eq_getElem _ [] h1, ← List.getD_eq_getElem _ [] h2]
      have char2 := planAux_char w
        (splitLines (applyEdits doc (renumberSelectedLists w doc sels)))
        (renumberFlags (applyEdits doc (renumberSelectedLists w doc sels)) sels') [] i
      by_cases hflag2 : (renumberFlags (applyEdits doc
          (renumberSelectedLists w doc sels)) sels').getD i false = true
      · obtain ⟨hlen2, hlist2, hbs2⟩ := flag_true_parts
          (applyEdits doc (renumberSelectedLists w doc sels)) sels' i hflag2
        have hbs_eq : blockStartIdx ((splitLines (applyEdits doc
            (renumberSelectedLists w doc sels))).map isListLine) i =
            blockStartIdx ((splitLines doc).map isListLine) i := by
          apply blockStartIdx_congr
          intro j
          rw [getD_map_isListLine, getD_map_isListLine]
          exact hisL j
        have hlist1 : isListLine ((splitLines doc).getD i []) = true := by
          rw [← hisL i]
          exact hlist2
        obtain ⟨it, hit⟩ := Option.isSome_iff_exists.mp hlist1
        have hflag1 : (renumberFlags doc sels).getD i false = true := by
          rw [renumberFlags_getD]
          simp only [Bool.and_eq_true, decide_eq_true_eq]
          refine ⟨by rw [← hlen1]; exact hlen2, hlist1, ?_⟩
          apply hsub
          rw [← hbs_eq]
          exact hbs2
        have char1 := planAux_char w (splitLines doc) (renumberFlags doc sels) [] i
        have hLi := char1.2 it hit hflag1
        have hDi : (splitLines (applyEdits doc
            (renumberSelectedLists w doc sels))).getD i [] =
            it.indent ++ (natDigits (((ordinalsAux w
              ((splitLines doc).map parseListItem) []).getD i none).getD 0) ++
              it.rest) := by
          rw [hsplit]
          exact hLi
        have hparseD : parseListItem ((splitLines (applyEdits doc
            (renumberSelectedLists w doc sels))).getD i []) =
            some ⟨it.indent, natDigits (((ordinalsAux w
              ((splitLines doc).map parseListItem) []).getD i none).getD 0),
              it.rest⟩ := by
          rw [hDi]
          exact parse_rebuilt _ it _ hit
        have h2 := char2.2 _ hparseD hflag2
        rw [h2, hords, hDi]
      · simp only [Bool.not_eq_true] at hflag2
        exact char2.1 (Or.inr hflag2)
  rw [hmain]
  exact join_split (applyEdits doc (renumberSelectedLists w doc sels))

theorem c10_witness :
    applyEdits
        (applyEdits (("2. a\n5. b").data)
          (renumberSelectedLists 4 (("2. a\n5. b").data) [⟨0, 0⟩]))
        (renumberSelectedLists 4
          (applyEdits (("2. a\n5. b").data)
            (renumberSelectedLists 4 (("2. a\n5. b").data) [⟨0, 0⟩]))
          [⟨0, 0⟩]) =
      applyEdits (("2. a\n5. b").data)
        (renumberSelectedLists 4 (("2. a\n5. b").data) [⟨0, 0⟩]) :=
  c10_renumber_idempotent 4 (("2. a\n5. b").data) [⟨0, 0⟩] [⟨0, 0⟩] (by decide)
